import Mathlib

/-!
Verification of the Cordelia task lifecycle engine.

This file gives a shallow embedding of the core task-lifecycle code of the
repository and proves/refutes the frozen claims about it:

* `app/services/task_engine.py` — `_PRIORITY_RANK`, `_parse_due_at`,
  `upsert_tasks` (the LLM-proposal reconciliation engine);
* `app/tasks/deadline_tasks.py` — `process_task_deadlines` (the three-pass
  deadline sweep);
* `app/services/completion_check.py` — `check_task_resolved`,
  `check_and_sync_completion` (the completion checker; its line 77 reads
  the undeclared `settings.ANTHROPIC_API_KEY` and therefore raises
  `AttributeError` whenever it is reached — see `check_task_resolved`).

Modelling conventions:

* instants (python `datetime` values compared with `now`) are integers
  (seconds on the UTC timeline);
* external library calls (`dateutil_parser.parse`,
  `datetime.fromisoformat`, the Anthropic LLM judge, the Gmail connector
  and the push channel) are oracles passed in as function parameters;
  a python exception raised by such a call is an `Except.error` result;
* SQLAlchemy rows are records in a list; in-place mutation of a loaded row
  is `List.set` at the row's index; a query is a filter over the list;
  a `db.commit()` that can violate the `tasks` table's unique constraint
  is modelled in `upsert_tasks_commit`, raising (and rolling back) exactly
  when the resulting table holds a duplicate `(conversation_id, task_key)`
  pair.
  Row order in the list plays the role of the physical row order that a
  `SELECT` without `ORDER BY` returns;
* the `tasks` table's primary key `id` (a fresh uuid, used by the code only
  in log lines) is not modelled; rows are identified by the table's unique
  `(conversation_id, task_key)` constraint or by their position;
* `raw_llm_output` (python `Any`, an opaque last-write-wins blob) is
  modelled as `String`;
* the nullable JSON columns `notify_at` / `notifications_sent` are plain
  lists; the code treats a SQL `NULL` and `[]` identically on every read
  (`if not t.notify_at`, `t.notifications_sent or []`), so `NULL` is
  modelled as `[]`.
-/

namespace Cordelia

/-- A row of the `tasks` table (`app/models/task.py` plus the
`notify_at`/`notifications_sent`/`snoozed_until` columns added by migration
`e6f7a8b9c0d1_add_task_notification_columns.py`).  The uuid primary key is
omitted (see the module docstring). -/
structure Task where
  user_id : String
  conversation_id : String
  task_key : String
  title : String
  category : String
  priority : String
  summary : Option String
  due_at : Option Int
  status : String
  ignore_reason : Option String
  llm_model : String
  raw_llm_output : String
  notify_at : List String
  notifications_sent : List String
  snoozed_until : Option Int
  created_at : Int
  updated_at : Int
deriving Repr, DecidableEq

/-- `LLMTask` (`app/services/llm_processor.py`, lines 88-96): one task
proposal extracted by the LLM, fed to `upsert_tasks`. -/
structure LLMTask where
  task_key : String
  title : String
  category : String
  priority : String
  summary : Option String := none
  due_at : Option String := none
  ignore_reason : Option String := none
  notify_at : List String := []
deriving Repr, DecidableEq

/-- `_PRIORITY_RANK` (`task_engine.py`, line 15): the dict
`{"high": 3, "medium": 2, "low": 1}` composed with `.get(p, 0)`, i.e. the
rank lookup with default `0` used on lines 103-104. -/
def _PRIORITY_RANK (p : String) : Nat :=
  if p = "high" then 3
  else if p = "medium" then 2
  else if p = "low" then 1
  else 0

/-- The value returned by `dateutil_parser.parse`: a python `datetime`,
split into its wall-clock reading and its (optional) utc offset.  The
instant an aware datetime denotes is `wall - offset`; a naive datetime
(`tzinfo is None`) has `tzoffset = none`. -/
structure PyDatetime where
  wall : Int
  tzoffset : Option Int
deriving Repr, DecidableEq

/-- The UTC instant denoted by a `PyDatetime` whose `tzinfo` is set. -/
def PyDatetime.instant (dt : PyDatetime) : Int :=
  dt.wall - dt.tzoffset.getD 0

/-- The documented failure modes of `dateutil_parser.parse` on a `str`
input: `ValueError` (including `ParserError`) and `OverflowError` — exactly
the exceptions caught on line 26 of `task_engine.py`. -/
inductive DateutilError where
  | valueError
  | overflowError
deriving Repr, DecidableEq

/-- The signature of the external `dateutil_parser.parse` collaborator:
either a parsed datetime or a raised error. -/
abbrev DateutilParse := String → Except DateutilError PyDatetime

/-- `_parse_due_at` (`task_engine.py`, lines 18-28).  `if not due_at_str`
is true for both `None` and `""`; a raised `ValueError`/`OverflowError` is
caught and logged; a naive result has its `tzinfo` replaced by UTC. -/
def _parse_due_at (parse : DateutilParse) (due_at_str : Option String) : Option Int :=
  match due_at_str with
  | none => none
  | some s =>
    if s = "" then none
    else
      match parse s with
      | .error _ => none
      | .ok dt =>
        let dt := if dt.tzoffset = none then { dt with tzoffset := some 0 } else dt
        some dt.instant

/-- Whether a row belongs to the conversation `cid` under the
reconciliation key `key` — the condition the `existing_rows` dict
comprehension of `task_engine.py` (lines 50-53) selects and keys rows
by. -/
def rowMatches (cid key : String) (t : Task) : Bool :=
  t.conversation_id == cid && t.task_key == key

/-- The index of the row the snapshot dict `existing_rows` (`task_engine.py`
lines 50-53) associates with `key`: among the rows of `db` whose
`conversation_id` is `cid`, the dict comprehension keeps the row appearing
last, keyed by `task_key`. -/
def lookupLast (db : List Task) (cid key : String) : Option Nat :=
  ((List.range db.length).filter fun i =>
    match db[i]? with
    | some t => rowMatches cid key t
    | none => false).getLast?

/-- The `Task(...)` constructor call on lines 61-79 of `task_engine.py`
(the INSERT branch): status is `ignored` for an `ignored`-category
proposal, else `pending`; `snoozed_until` is left at its column default
`NULL`. -/
def newTaskRow (parse : DateutilParse) (conversation_id user_id : String)
    (llm_task : LLMTask) (raw_llm_output llm_model : String) (now : Int) : Task :=
  { user_id := user_id
    conversation_id := conversation_id
    task_key := llm_task.task_key
    title := llm_task.title
    category := llm_task.category
    priority := llm_task.priority
    summary := llm_task.summary
    due_at := _parse_due_at parse llm_task.due_at
    status := if llm_task.category = "ignored" then "ignored" else "pending"
    ignore_reason := llm_task.ignore_reason
    llm_model := llm_model
    raw_llm_output := raw_llm_output
    notify_at := llm_task.notify_at
    notifications_sent := []
    snoozed_until := none
    created_at := now
    updated_at := now }

/-- The `pending` (catch-all `else`) UPDATE branch of `upsert_tasks`
(`task_engine.py`, lines 94-107): title, summary, due_at, notify_at,
llm_model, raw_llm_output and updated_at are overwritten; priority is
replaced only when the proposed rank strictly exceeds the stored rank. -/
def pendingUpdate (parse : DateutilParse) (existing : Task) (llm_task : LLMTask)
    (raw_llm_output llm_model : String) (now : Int) : Task :=
  { existing with
    title := llm_task.title
    summary := llm_task.summary
    due_at := _parse_due_at parse llm_task.due_at
    notify_at := llm_task.notify_at
    llm_model := llm_model
    raw_llm_output := raw_llm_output
    updated_at := now
    priority :=
      if _PRIORITY_RANK existing.priority < _PRIORITY_RANK llm_task.priority then
        llm_task.priority
      else existing.priority }

/-- One iteration of the `for llm_task in llm_tasks` loop of `upsert_tasks`
(`task_engine.py`, lines 57-107), acting on the current row list `db`.
The dispatch index comes from the snapshot `db0` taken before the loop
(newly appended rows are invisible to it); the status test reads the live
row. -/
def upsertStep (parse : DateutilParse) (db0 : List Task)
    (conversation_id user_id : String) (raw_llm_output llm_model : String)
    (now : Int) (db : List Task) (llm_task : LLMTask) : List Task :=
  match lookupLast db0 conversation_id llm_task.task_key with
  | none =>
      db ++ [newTaskRow parse conversation_id user_id llm_task raw_llm_output llm_model now]
  | some i =>
      match db[i]? with
      | none => db
      | some existing =>
        if existing.status = "ignored" then
          db
        else if existing.status = "done" ∨ existing.status = "snoozed" then
          db.set i { existing with
            llm_model := llm_model
            raw_llm_output := raw_llm_output
            updated_at := now }
        else
          db.set i (pendingUpdate parse existing llm_task raw_llm_output llm_model now)

/-- The loop of `upsert_tasks` (`task_engine.py`, lines 31-107): load a
snapshot of the conversation's rows, then process each proposal in order,
mutating matched rows in place or appending inserts.  The value is the
session row list before the `db.commit()` of line 109, which
`upsert_tasks_commit` below models together with the table's unique
constraint (the python `results` return list is not modelled, no claim
mentions it). -/
def upsert_tasks (parse : DateutilParse) (db : List Task)
    (conversation_id user_id : String) (llm_tasks : List LLMTask)
    (raw_llm_output llm_model : String) (now : Int) : List Task :=
  llm_tasks.foldl
    (upsertStep parse db conversation_id user_id raw_llm_output llm_model now) db

/-- A row of the `users` table as read by the sweep and the completion
checker: `id` for the `User.id == t.user_id` lookup and `push_token` read
by the notification dispatcher. -/
structure User where
  id : String
  push_token : Option String
deriving Repr, DecidableEq

/-- A row of the `conversations` table as read by the completion checker:
`id` (for the lookup by `task.conversation_id`), `source` and `source_id`
(for the source refresh). -/
structure Conversation where
  id : String
  user_id : String
  source : String
  source_id : String
deriving Repr, DecidableEq

/-- A row of the `messages` table, restricted to the fields the completion
checker reads (`conversation_id`, `is_from_user`, `sent_at`) and the
fields the ingest dedup key uses (`source`, `source_id`). -/
structure Message where
  conversation_id : String
  user_id : String
  source : String
  source_id : String
  is_from_user : Bool
  sent_at : Int
deriving Repr, DecidableEq

/-- One message of a Gmail thread as returned by the external
`GmailConnector.get_thread` collaborator, restricted to what
`_refresh_from_source` (`completion_check.py`, lines 44-64) forwards into
the ingest payload and the ingest message upsert then uses. -/
structure ThreadMsg where
  source_id : String
  sent_at : Int
deriving Repr, DecidableEq

/-- The error surface of the Gmail connector plus ingest inside the `try`
of `_refresh_from_source`: exactly the `(GmailAuthError, GmailAPIError,
ValueError)` tuple caught on line 66 of `completion_check.py` (the
connector raises nothing else, see `gmail_connector.py`). -/
inductive RefreshError where
  | authError
  | apiError
  | valueError
deriving Repr, DecidableEq

/-- The read-only surroundings of the sweep and the completion checker:
the `users` and `conversations` tables (neither is mutated by the
modelled code paths) and the four external collaborators.

* `refresh` — `GmailConnector(user).get_thread(conversation.source_id)`;
* `judge` — the Anthropic call plus response parsing inside the `try` of
  `check_task_resolved` (lines 102-112): an exception of any kind is
  `.error`, otherwise `.ok` of the final `bool(data.get("resolved",
  False))`.  The oracle is never consulted: line 77 raises before the
  `try` is entered (see `check_task_resolved`), so claims quantifying
  over judge behaviour hold for every value of this field;
* `notify` — `notify_task_reminder` (the notification dispatcher,
  `notification_service.py`); an exception is `.error` and is caught by
  the sweep;
* `fromiso` — `datetime.fromisoformat` on the already-`Z`-rewritten
  string, composed with the comparison against the aware `now`: `.ok`
  gives the denoted instant; `.error` covers both a `ValueError` from a
  malformed string and the `TypeError` a naive result raises at `dt >
  now`; neither is caught by the sweep. -/
structure Env where
  users : List User
  conversations : List Conversation
  refresh : Conversation → User → Except RefreshError (List ThreadMsg)
  judge : Task → List Message → Except String Bool
  notify : User → Task → Option Int → Except String Unit
  fromiso : String → Except String Int

/-- The mutable database state the sweep session works on: the `tasks`
rows and the `messages` rows (grown by the ingest inside a source
refresh). -/
structure Session where
  tasks : List Task
  messages : List Message
deriving Repr, DecidableEq

/-- The message-upsert half of `ingest` (`ingest_service.py`, lines
58-87) as invoked from `_refresh_from_source` with a `source="gmail"`
payload built from the fetched thread: each thread message not already
present under the `(source, source_id)` dedup key is appended as a new
non-user message of the refreshed conversation.  The conversation-metadata
half of `ingest` (snippet, `last_message_at`, `updated_at`) touches no
field any modelled claim reads and is not modelled. -/
def ingestMessages (msgs : List Message) (conversation : Conversation) (user : User)
    (thread : List ThreadMsg) : List Message :=
  thread.foldl
    (fun acc m =>
      if acc.any fun m2 => m2.source = "gmail" ∧ m2.source_id = m.source_id then acc
      else acc ++ [{ conversation_id := conversation.id
                     user_id := user.id
                     source := "gmail"
                     source_id := m.source_id
                     is_from_user := false
                     sent_at := m.sent_at }])
    msgs

/-- `_refresh_from_source` (`completion_check.py`, lines 39-72): a no-op
for non-Gmail conversations; a connector/ingest failure is swallowed and
leaves the stored messages as they are.  The returned flag records whether
`ingest` ran to completion — `ingest` ends in `db.commit()`
(`ingest_service.py`, line 89), which the sweep model must observe. -/
def _refresh_from_source (env : Env) (conversation : Conversation) (user : User)
    (msgs : List Message) : List Message × Bool :=
  if conversation.source ≠ "gmail" then (msgs, false)
  else
    match env.refresh conversation user with
    | .error _ => (msgs, false)
    | .ok thread => (ingestMessages msgs conversation user thread, true)

/-- An insertion sort by `sent_at`, modelling the
`ORDER BY messages.sent_at ASC` of the `all_messages` query. -/
def insertBySentAt (m : Message) : List Message → List Message
  | [] => [m]
  | m2 :: rest =>
    if m.sent_at ≤ m2.sent_at then m :: m2 :: rest
    else m2 :: insertBySentAt m rest

/-- Sort a message list ascending by `sent_at`. -/
def sortBySentAt (msgs : List Message) : List Message :=
  msgs.foldr insertBySentAt []

/-- `check_task_resolved` (`completion_check.py`, lines 75-115).  Its
first statement (line 77) reads `settings.ANTHROPIC_API_KEY` to build the
Anthropic client — but the `Settings` model (`app/config.py`, lines 7-26)
declares no `ANTHROPIC_API_KEY` field and configures `extra="ignore"`, so
the attribute access raises `AttributeError` on every call, outside the
`try` of lines 102-115 whose conservative `return False` fallback
therefore never runs.  Prompt building, the LLM call (the `judge` oracle
of `Env`) and the response parsing are unreachable. -/
def check_task_resolved (_env : Env) (_task : Task) (_conversation : Conversation)
    (_messages : List Message) : Except String Bool :=
  .error "AttributeError"

/-- The result of a `check_and_sync_completion` call that returns: the
returned bool, the (possibly `done`-marked) task row, the (possibly
refreshed) messages table, and whether any `db.commit()` ran inside the
call (`ingest` commits on a successful refresh; the function itself
commits when resolved). -/
structure CheckResult where
  resolved : Bool
  task : Task
  messages : List Message
  committed : Bool
deriving Repr

/-- The session effects left behind when the line-77 `AttributeError`
escapes `check_and_sync_completion`: the (possibly refreshed) message
table, and whether the refresh already committed it — `ingest` ends in
`db.commit()` (`ingest_service.py`, line 89) before the exception is
raised. -/
structure CheckRaised where
  messages : List Message
  committed : Bool
deriving Repr

/-- `check_and_sync_completion` (`completion_check.py`, lines 118-151):
conversation lookup (first match, `false` when absent), swallowed source
refresh, the cheap no-new-user-messages short circuit (lines 131-137),
then the call to `check_task_resolved` (line 143), which raises
`AttributeError` at its line 77 — nothing in this function catches it, so
the exception propagates to the caller.  The `resolved` branch of lines
144-151 (mark `done`, commit) is kept as written but is unreachable. -/
def check_and_sync_completion (env : Env) (msgs : List Message) (task : Task)
    (user : User) (now : Int) : Except CheckRaised CheckResult :=
  match env.conversations.find? fun c => c.id = task.conversation_id with
  | none => .ok ⟨false, task, msgs, false⟩
  | some conversation =>
    let refreshed := _refresh_from_source env conversation user msgs
    let msgs1 := refreshed.1
    let user_messages_after := msgs1.filter fun m =>
      m.conversation_id = conversation.id ∧ m.is_from_user = true ∧ task.created_at < m.sent_at
    if user_messages_after.isEmpty then .ok ⟨false, task, msgs1, refreshed.2⟩
    else
      let all_messages := sortBySentAt (msgs1.filter fun m => m.conversation_id = conversation.id)
      match check_task_resolved env task conversation all_messages with
      | .error _ => .error ⟨msgs1, refreshed.2⟩
      | .ok resolved =>
        if resolved then
          .ok ⟨true, { task with status := "done", updated_at := now }, msgs1, true⟩
        else .ok ⟨false, task, msgs1, refreshed.2⟩

/-- The Pass 1 filter (`deadline_tasks.py`, lines 33-37): snoozed, with a
non-null `snoozed_until` that is `<= now`. -/
def snoozeExpired (now : Int) (t : Task) : Bool :=
  t.status == "snoozed" &&
    match t.snoozed_until with
    | some u => decide (u ≤ now)
    | none => false

/-- The Pass 1 per-row mutation (`deadline_tasks.py`, lines 38-41) applied
to the rows the filter selects. -/
def pass1Update (now : Int) (t : Task) : Task :=
  if snoozeExpired now t then
    { t with status := "pending", snoozed_until := none, updated_at := now }
  else t

/-- The Pass 3 filter (`deadline_tasks.py`, lines 88-92): pending, with a
non-null `due_at` that is `< now`. -/
def overdue (now : Int) (t : Task) : Bool :=
  t.status == "pending" &&
    match t.due_at with
    | some d => decide (d < now)
    | none => false

/-- The Pass 3 per-row mutation (`deadline_tasks.py`, lines 93-95). -/
def pass3Update (now : Int) (t : Task) : Task :=
  if overdue now t then { t with status := "expired", updated_at := now } else t

/-- The evolving state of Pass 2: the last committed database state, the
live session state, the (side-effecting, rollback-immune) log of
successful reminder dispatches as `(conversation_id, task_key, dt_str)`
triples, and the `fired` flag of line 47. -/
structure P2St where
  committed : Session
  session : Session
  log : List (String × String × String)
  fired : Bool

/-- The python `set(t.notifications_sent or [])` built on line 51 of
`deadline_tasks.py`, modelled as first-occurrence deduplication: the model
only ever reads it through membership and re-iteration. -/
def pySet (l : List String) : List String :=
  l.foldl (fun acc x => if acc.contains x then acc else acc ++ [x]) []

/-- Python's `dt_str.replace("Z", "+00:00")` from `deadline_tasks.py`,
line 56: the needle `"Z"` is a single character, so `str.replace`
substitutes every occurrence of that character. -/
def pyReplace (s : String) : String :=
  ⟨s.data.foldr (fun c acc => (if c = 'Z' then "+00:00".data else [c]) ++ acc) []⟩

/-- The `for dt_str in t.notify_at` loop of Pass 2 (`deadline_tasks.py`,
lines 53-78) for the task at row index `i`, with `sent` the set built on
line 51 and `newly` the accumulator of line 52.  `.error` models an
uncaught exception propagating out of the celery task — either from
`datetime.fromisoformat` (line 56) or the `AttributeError` escaping
`check_and_sync_completion` (line 63); in the latter case the refresh's
`ingest` may already have committed the session.  `.ok` returns the
entries to record and the state after the loop (reached normally or via
the `break` on a successful completion check, itself unreachable). -/
def fireDts (env : Env) (now : Int) (i : Nat) (sent : List String) :
    List String → List String → P2St → Except P2St (List String × P2St)
  | [], newly, st => .ok (newly, st)
  | dt_str :: rest, newly, st =>
    if sent.contains dt_str then fireDts env now i sent rest newly st
    else
      match env.fromiso (pyReplace dt_str) with
      | .error _ => .error st
      | .ok dt =>
        if now < dt then fireDts env now i sent rest newly st
        else
          match st.session.tasks[i]? with
          | none => fireDts env now i sent rest newly st
          | some t =>
            match env.users.find? fun u => u.id = t.user_id with
            | none => fireDts env now i sent rest newly st
            | some user =>
              match check_and_sync_completion env st.session.messages t user now with
              | .error cr =>
                let sessA : Session := { st.session with messages := cr.messages }
                .error { st with
                  session := sessA
                  committed := if cr.committed then sessA else st.committed }
              | .ok res =>
              let sessA : Session := { st.session with messages := res.messages }
              let stA : P2St :=
                { st with
                  session := sessA
                  committed := if res.committed then sessA else st.committed }
              if res.resolved then
                let sessB : Session := { sessA with tasks := sessA.tasks.set i res.task }
                .ok (newly, { stA with session := sessB, committed := sessB })
              else
                let mins : Option Int :=
                  match t.due_at with
                  | some due => some (max 0 ((due - now).fdiv 60))
                  | none => none
                match env.notify user t mins with
                | .ok _ =>
                  fireDts env now i sent rest (newly ++ [dt_str])
                    { stA with log := stA.log ++ [(t.conversation_id, t.task_key, dt_str)] }
                | .error _ => fireDts env now i sent rest newly stA

/-- The per-task body of Pass 2 (`deadline_tasks.py`, lines 48-83) for the
task at row index `i` of the pending snapshot: skip empty `notify_at`,
run the datetime loop, and afterwards (also after a `break`) reassign
`notifications_sent` to `[*sent, *newly]` and bump `updated_at` when
anything fired.  python iterates the line-51 `set` to build the new list;
its iteration order is modelled as first-occurrence order
(`pySet`) — every claim reads the field through membership. -/
def fireTask (env : Env) (now : Int) (st : P2St) (i : Nat) : Except P2St P2St :=
  match st.session.tasks[i]? with
  | none => .ok st
  | some t =>
    if t.notify_at.isEmpty then .ok st
    else
      let sent := pySet t.notifications_sent
      match fireDts env now i sent t.notify_at [] st with
      | .error stE => .error stE
      | .ok (newly, st1) =>
        if newly.isEmpty then .ok st1
        else
          match st1.session.tasks[i]? with
          | none => .ok st1
          | some t2 =>
            let t3 := { t2 with
              notifications_sent := sent ++ newly
              updated_at := now }
            .ok { st1 with
              session := { st1.session with tasks := st1.session.tasks.set i t3 }
              fired := true }

/-- The `for t in pending` loop of Pass 2 over the snapshot row indices. -/
def pass2Go (env : Env) (now : Int) : List Nat → P2St → Except P2St P2St
  | [], st => .ok st
  | i :: rest, st =>
    match fireTask env now st i with
    | .error stE => .error stE
    | .ok st1 => pass2Go env now rest st1

/-- The result of one sweep invocation: the committed database state when
the celery task returns (or when the uncaught exception escapes and the
session is closed uncommitted), the dispatch log, and whether the run
aborted with an exception. -/
structure SweepRes where
  committed : Session
  log : List (String × String × String)
  aborted : Bool

/-- `process_task_deadlines` (`deadline_tasks.py`, lines 16-100): Pass 1
(un-snooze, committed when non-empty), Pass 2 (fire reminders over the
pending snapshot, committed when anything fired; intermediate commits
happen inside `check_and_sync_completion`), Pass 3 (expire overdue
pending tasks, committed when non-empty).  An exception escaping Pass 2
rolls the session back to the last committed state. -/
def process_task_deadlines (env : Env) (db : Session) (now : Int) : SweepRes :=
  let session1 : Session := { db with tasks := db.tasks.map (pass1Update now) }
  let committed1 := if db.tasks.any (snoozeExpired now) then session1 else db
  let pendingIdx := (List.range session1.tasks.length).filter fun i =>
    match session1.tasks[i]? with
    | some t => t.status = "pending"
    | none => false
  match pass2Go env now pendingIdx ⟨committed1, session1, [], false⟩ with
  | .error st => ⟨st.committed, st.log, true⟩
  | .ok st =>
    let committed2 := if st.fired then st.session else st.committed
    let session3 : Session := { st.session with tasks := st.session.tasks.map (pass3Update now) }
    let committed3 := if st.session.tasks.any (overdue now) then session3 else committed2
    ⟨committed3, st.log, false⟩

/-! ### Supporting lemmas about the snapshot lookup -/

theorem lookupLast_nil (cid key : String) : lookupLast [] cid key = none := rfl

theorem lookupLast_concat (db : List Task) (t : Task) (cid key : String) :
    lookupLast (db ++ [t]) cid key =
      if rowMatches cid key t then some db.length else lookupLast db cid key := by
  unfold lookupLast
  have hlen : (db ++ [t]).length = db.length + 1 := by simp
  have hlast : (db ++ [t])[db.length]? = some t := by
    rw [List.getElem?_append_right (le_refl _)]; simp
  have hpre : ∀ i ∈ List.range db.length,
      (match (db ++ [t])[i]? with
        | some u => rowMatches cid key u
        | none => false) =
      (match db[i]? with
        | some u => rowMatches cid key u
        | none => false) := by
    intro i hi
    rw [List.getElem?_append_left (List.mem_range.mp hi)]
  rw [hlen, List.range_succ, List.filter_append, List.filter_congr hpre]
  cases hm : rowMatches cid key t
  · simp [List.filter_cons, hlast, hm]
  · simp [List.filter_cons, hlast, hm, List.getLast?_concat]

theorem lookupLast_congr (db db2 : List Task) (cid key : String)
    (hlen : db.length = db2.length)
    (h : ∀ (i : Nat) (t t2 : Task), db[i]? = some t → db2[i]? = some t2 →
      rowMatches cid key t = rowMatches cid key t2) :
    lookupLast db cid key = lookupLast db2 cid key := by
  unfold lookupLast
  rw [hlen]
  congr 1
  apply List.filter_congr
  intro i hi
  have hi2 : i < db2.length := List.mem_range.mp hi
  have hi1 : i < db.length := hlen ▸ hi2
  obtain ⟨t, ht⟩ : ∃ a, db[i]? = some a := ⟨db[i], List.getElem?_eq_getElem hi1⟩
  obtain ⟨t2, ht2⟩ : ∃ a, db2[i]? = some a := ⟨db2[i], List.getElem?_eq_getElem hi2⟩
  rw [ht, ht2]
  exact h i t t2 ht ht2

theorem lookupLast_some_spec (db : List Task) (cid key : String) (j : Nat)
    (h : lookupLast db cid key = some j) :
    j < db.length ∧ ∃ t, db[j]? = some t ∧ rowMatches cid key t = true ∧
      ∀ (i : Nat) (t2 : Task), j < i → db[i]? = some t2 → rowMatches cid key t2 = false := by
  induction db using List.reverseRecOn with
  | nil => simp [lookupLast_nil] at h
  | append_singleton db t ih =>
    rw [lookupLast_concat] at h
    cases hm : rowMatches cid key t
    · rw [if_neg (by simp [hm])] at h
      obtain ⟨hj, u, hu, hum, hafter⟩ := ih h
      refine ⟨by simp; omega, u, ?_, hum, ?_⟩
      · rw [List.getElem?_append_left hj]; exact hu
      · intro i t2 hji hget
        rcases lt_or_ge i db.length with hi | hi
        · exact hafter i t2 hji (by rw [List.getElem?_append_left hi] at hget; exact hget)
        · have hlt : i < db.length + 1 := by
            have := List.getElem?_eq_some.mp hget
            simpa using this.1
          have : i = db.length := by omega
          subst this
          rw [List.getElem?_append_right (le_refl _)] at hget
          simp at hget
          subst hget
          exact hm
    · rw [if_pos (by simp [hm])] at h
      obtain rfl : db.length = j := by simpa using h
      refine ⟨by simp, t, ?_, hm, ?_⟩
      · rw [List.getElem?_append_right (le_refl _)]; simp
      · intro i t2 hji hget
        have : i < db.length + 1 := by
          have := List.getElem?_eq_some.mp hget
          simpa using this.1
        omega

theorem lookupLast_none_spec (db : List Task) (cid key : String)
    (h : lookupLast db cid key = none) :
    ∀ (i : Nat) (t : Task), db[i]? = some t → rowMatches cid key t = false := by
  induction db using List.reverseRecOn with
  | nil => intro i t hget; simp at hget
  | append_singleton db t ih =>
    rw [lookupLast_concat] at h
    cases hm : rowMatches cid key t
    · rw [if_neg (by simp [hm])] at h
      intro i t2 hget
      have hlt : i < db.length + 1 := by
        have := List.getElem?_eq_some.mp hget
        simpa using this.1
      rcases lt_or_ge i db.length with hi | hi
      · exact ih h i t2 (by rw [List.getElem?_append_left hi] at hget; exact hget)
      · have : i = db.length := by omega
        subst this
        rw [List.getElem?_append_right (le_refl _)] at hget
        simp at hget
        subst hget
        exact hm
    · rw [if_pos (by simp [hm])] at h
      exact absurd h (by simp)

theorem lookupLast_last (db : List Task) (cid key : String) (j : Nat) (t : Task)
    (hget : db[j]? = some t) (hm : rowMatches cid key t = true)
    (hafter : ∀ (i : Nat) (t2 : Task), j < i → db[i]? = some t2 →
      rowMatches cid key t2 = false) :
    lookupLast db cid key = some j := by
  induction db using List.reverseRecOn with
  | nil => simp at hget
  | append_singleton db u ih =>
    have hj : j < db.length + 1 := by
      have := List.getElem?_eq_some.mp hget
      simpa using this.1
    rw [lookupLast_concat]
    rcases lt_or_ge j db.length with hjl | hjr
    · have hu : rowMatches cid key u = false := by
        refine hafter db.length u hjl ?_
        rw [List.getElem?_append_right (le_refl _)]; simp
      rw [if_neg (by simp [hu])]
      refine ih (by rw [List.getElem?_append_left hjl] at hget; exact hget) ?_
      intro i t2 hji hget2
      have hi : i < db.length := by
        have := List.getElem?_eq_some.mp hget2
        simpa using this.1
      exact hafter i t2 hji (by rw [List.getElem?_append_left hi]; exact hget2)
    · have : j = db.length := by omega
      subst this
      rw [List.getElem?_append_right (le_refl _)] at hget
      simp at hget
      subst hget
      rw [if_pos hm]

/-! ### The frame relation of one reconciliation call

`upsert_tasks` never rewrites a row's identity or lifecycle fields: for a
row already present when the call starts, the key, conversation, owner,
category, status, ignore reason, snooze state, sent-notification list and
creation time are untouched, the priority rank never drops, and an
`ignored` row is not touched at all. -/

def FrameR (t t2 : Task) : Prop :=
  t2.task_key = t.task_key ∧
  t2.conversation_id = t.conversation_id ∧
  t2.user_id = t.user_id ∧
  t2.category = t.category ∧
  t2.status = t.status ∧
  t2.ignore_reason = t.ignore_reason ∧
  t2.snoozed_until = t.snoozed_until ∧
  t2.notifications_sent = t.notifications_sent ∧
  t2.created_at = t.created_at ∧
  _PRIORITY_RANK t.priority ≤ _PRIORITY_RANK t2.priority ∧
  (t.status = "ignored" → t2 = t)

theorem FrameR.rfl_self (t : Task) : FrameR t t :=
  ⟨Eq.refl _, Eq.refl _, Eq.refl _, Eq.refl _, Eq.refl _, Eq.refl _, Eq.refl _,
    Eq.refl _, Eq.refl _, le_refl _, fun _ => Eq.refl _⟩

theorem FrameR.trans {t t2 t3 : Task} (h12 : FrameR t t2) (h23 : FrameR t2 t3) :
    FrameR t t3 := by
  obtain ⟨k12, c12, u12, g12, s12, r12, z12, n12, a12, p12, i12⟩ := h12
  obtain ⟨k23, c23, u23, g23, s23, r23, z23, n23, a23, p23, i23⟩ := h23
  refine ⟨k23.trans k12, c23.trans c12, u23.trans u12, g23.trans g12, s23.trans s12,
    r23.trans r12, z23.trans z12, n23.trans n12, a23.trans a12, le_trans p12 p23, ?_⟩
  intro hig
  have h2 : t2 = t := i12 hig
  have h3 : t3 = t2 := i23 (by rw [h2]; exact hig)
  rw [h3, h2]

theorem FrameR_pendingUpdate (parse : DateutilParse) (existing : Task) (p : LLMTask)
    (raw model : String) (now : Int) (hig : existing.status ≠ "ignored") :
    FrameR existing (pendingUpdate parse existing p raw model now) := by
  unfold pendingUpdate
  refine ⟨rfl, rfl, rfl, rfl, rfl, rfl, rfl, rfl, rfl, ?_, fun h => absurd h hig⟩
  by_cases hb : _PRIORITY_RANK existing.priority < _PRIORITY_RANK p.priority
  · simp only [if_pos hb]; exact le_of_lt hb
  · simp only [if_neg hb]; exact le_refl _

theorem FrameR_provenanceUpdate (existing : Task) (raw model : String) (now : Int)
    (hig : existing.status ≠ "ignored") :
    FrameR existing
      { existing with llm_model := model, raw_llm_output := raw, updated_at := now } :=
  ⟨rfl, rfl, rfl, rfl, rfl, rfl, rfl, rfl, rfl, le_refl _, fun h => absurd h hig⟩

/-- The frame relation between the row list a reconciliation call starts
from and any later row list of the same call: the original rows sit at
their original positions and are only ever changed within `FrameR`. -/
def FrameAll (db0 db : List Task) : Prop :=
  db0.length ≤ db.length ∧
  ∀ (i : Nat) (t t2 : Task), db0[i]? = some t → db[i]? = some t2 → FrameR t t2

theorem FrameAll.rfl_all (db : List Task) : FrameAll db db := by
  refine ⟨le_refl _, fun i t t2 h1 h2 => ?_⟩
  rw [h1] at h2
  cases h2
  exact FrameR.rfl_self t

theorem frameAll_upsertStep (parse : DateutilParse) (db0 db : List Task)
    (cid uid raw model : String) (now : Int) (p : LLMTask)
    (h : FrameAll db0 db) :
    FrameAll db0 (upsertStep parse db0 cid uid raw model now db p) := by
  obtain ⟨hlen, hR⟩ := h
  unfold upsertStep
  cases hlook : lookupLast db0 cid p.task_key with
  | none =>
    simp only [hlook]
    refine ⟨le_trans hlen (by simp), fun i t t2 h1 h2 => ?_⟩
    have hi : i < db.length :=
      lt_of_lt_of_le (List.getElem?_eq_some.mp h1).1 hlen
    rw [List.getElem?_append_left hi] at h2
    exact hR i t t2 h1 h2
  | some j =>
    simp only [hlook]
    cases hget : db[j]? with
    | none => simp only [hget]; exact ⟨hlen, hR⟩
    | some existing =>
      simp only [hget]
      have hjdb : j < db.length := (List.getElem?_eq_some.mp hget).1
      by_cases hig : existing.status = "ignored"
      · rw [if_pos hig]; exact ⟨hlen, hR⟩
      · rw [if_neg hig]
        by_cases hds : existing.status = "done" ∨ existing.status = "snoozed"
        · rw [if_pos hds]
          refine ⟨le_trans hlen (by rw [List.length_set]), fun i t t2 h1 h2 => ?_⟩
          by_cases hij : i = j
          · subst hij
            rw [List.getElem?_set_eq hjdb] at h2
            cases h2
            exact FrameR.trans (hR i t existing h1 hget)
              (FrameR_provenanceUpdate existing raw model now hig)
          · rw [List.getElem?_set_ne (fun hh => hij hh.symm)] at h2
            exact hR i t t2 h1 h2
        · rw [if_neg hds]
          refine ⟨le_trans hlen (by rw [List.length_set]), fun i t t2 h1 h2 => ?_⟩
          by_cases hij : i = j
          · subst hij
            rw [List.getElem?_set_eq hjdb] at h2
            cases h2
            exact FrameR.trans (hR i t existing h1 hget)
              (FrameR_pendingUpdate parse existing p raw model now hig)
          · rw [List.getElem?_set_ne (fun hh => hij hh.symm)] at h2
            exact hR i t t2 h1 h2

theorem frameAll_foldl (parse : DateutilParse) (db0 : List Task)
    (cid uid raw model : String) (now : Int) (ts : List LLMTask) :
    ∀ db : List Task, FrameAll db0 db →
      FrameAll db0 (ts.foldl (upsertStep parse db0 cid uid raw model now) db) := by
  induction ts with
  | nil => intro db h; exact h
  | cons p rest ih =>
    intro db h
    exact ih _ (frameAll_upsertStep parse db0 db cid uid raw model now p h)

/-- The master frame property of one `upsert_tasks` call. -/
theorem upsert_frame (parse : DateutilParse) (db : List Task)
    (cid uid : String) (ts : List LLMTask) (raw model : String) (now : Int) :
    FrameAll db (upsert_tasks parse db cid uid ts raw model now) :=
  frameAll_foldl parse db cid uid raw model now ts db (FrameAll.rfl_all db)

/-- The effect of a one-proposal reconciliation call on a matched
non-ignored, non-done, non-snoozed row: exactly the catch-all UPDATE
branch applied in place. -/
theorem upsert_single_pending (parse : DateutilParse) (db : List Task)
    (cid uid : String) (p : LLMTask) (raw model : String) (now : Int)
    (i : Nat) (existing : Task)
    (hlook : lookupLast db cid p.task_key = some i)
    (hget : db[i]? = some existing)
    (hst : existing.status = "pending") :
    upsert_tasks parse db cid uid [p] raw model now =
      db.set i (pendingUpdate parse existing p raw model now) := by
  unfold upsert_tasks
  simp only [List.foldl_cons, List.foldl_nil]
  unfold upsertStep
  simp only [hlook, hget]
  rw [if_neg (by rw [hst]; decide), if_neg (by rw [hst]; decide)]

/-! ### The claims -/

/-- C9: due_at parsing in reconciliation is total and degrading: a null
input yields null, an empty string yields null, a raised parse error
(ValueError or OverflowError, the error surface of `dateutil_parser.parse`)
is caught and yields null rather than failing the batch, and a parseable
timestamp without timezone information is interpreted as UTC (its
wall-clock reading is taken as the UTC instant). -/
theorem parse_due_at_total_and_degrading :
    (∀ parse : DateutilParse, _parse_due_at parse none = none) ∧
    (∀ parse : DateutilParse, _parse_due_at parse (some "") = none) ∧
    (∀ (parse : DateutilParse) (s : String) (e : DateutilError),
      parse s = .error e → _parse_due_at parse (some s) = none) ∧
    (∀ (parse : DateutilParse) (s : String) (dt : PyDatetime),
      s ≠ "" → parse s = .ok dt → dt.tzoffset = none →
      _parse_due_at parse (some s) = some dt.wall) := by
  refine ⟨fun parse => rfl, fun parse => rfl, ?_, ?_⟩
  · intro parse s e hp
    by_cases hs : s = ""
    · simp [_parse_due_at, hs]
    · simp [_parse_due_at, hs, hp]
  · intro parse s dt hs hp htz
    simp [_parse_due_at, hs, hp, htz, PyDatetime.instant]

/-- Witness for C9 at concrete inputs. -/
theorem parse_due_at_total_and_degrading_witness :
    _parse_due_at (fun _ => .error .valueError) none = none ∧
    _parse_due_at (fun _ => .error .valueError) (some "") = none ∧
    _parse_due_at (fun _ => .error .valueError) (some "gibberish") = none ∧
    _parse_due_at (fun _ => .ok ⟨1700000000, none⟩) (some "2023-11-14T22:13:20") =
      some 1700000000 :=
  ⟨parse_due_at_total_and_degrading.1 _,
   parse_due_at_total_and_degrading.2.1 _,
   parse_due_at_total_and_degrading.2.2.1 _ _ .valueError rfl,
   parse_due_at_total_and_degrading.2.2.2 _ _ ⟨1700000000, none⟩
     (by decide) rfl rfl⟩

/-- C5: an existing task whose status is `ignored` is left completely
unchanged (every field, including `updated_at`, `llm_model` and
`raw_llm_output`) by any reconciliation call, whatever proposals it
carries. -/
theorem ignored_rows_immutable (parse : DateutilParse) (db : List Task)
    (cid uid : String) (ts : List LLMTask) (raw model : String) (now : Int)
    (i : Nat) (t : Task)
    (hget : db[i]? = some t) (hig : t.status = "ignored") :
    (upsert_tasks parse db cid uid ts raw model now)[i]? = some t := by
  obtain ⟨hlen, hR⟩ := upsert_frame parse db cid uid ts raw model now
  have hi : i < db.length := (List.getElem?_eq_some.mp hget).1
  have hi2 : i < (upsert_tasks parse db cid uid ts raw model now).length :=
    lt_of_lt_of_le hi hlen
  obtain ⟨t2, ht2⟩ : ∃ a, (upsert_tasks parse db cid uid ts raw model now)[i]? = some a :=
    ⟨_, List.getElem?_eq_getElem hi2⟩
  have := (hR i t t2 hget ht2).2.2.2.2.2.2.2.2.2.2 hig
  rw [ht2, this]

/-- Witness for C5: a one-row ignored database is untouched by a
reconciliation call proposing the same key. -/
theorem ignored_rows_immutable_witness :
    (upsert_tasks (fun _ => .error .valueError)
      [{ user_id := "u1", conversation_id := "c1", task_key := "k1",
         title := "Old", category := "reply", priority := "low",
         summary := none, due_at := none, status := "ignored",
         ignore_reason := some "promo", llm_model := "m0",
         raw_llm_output := "r0", notify_at := [], notifications_sent := [],
         snoozed_until := none, created_at := 0, updated_at := 0 }]
      "c1" "u1"
      [{ task_key := "k1", title := "New", category := "reply",
         priority := "high" }]
      "r1" "m1" 100)[0]? =
    some { user_id := "u1", conversation_id := "c1", task_key := "k1",
           title := "Old", category := "reply", priority := "low",
           summary := none, due_at := none, status := "ignored",
           ignore_reason := some "promo", llm_model := "m0",
           raw_llm_output := "r0", notify_at := [], notifications_sent := [],
           snoozed_until := none, created_at := 0, updated_at := 0 } :=
  ignored_rows_immutable _ _ _ _ _ _ _ _ 0 _ rfl rfl

/-- C4: reconciling a single proposal against a matched `pending` row
updates exactly `title`, `summary`, `due_at`, `notify_at`, `llm_model`,
`raw_llm_output` and `updated_at`, plus `priority` only when the proposed
priority outranks the stored one; `task_key`, `conversation_id`,
`user_id`, `created_at` and `status` (and every other field:
`category`, `ignore_reason`, `notifications_sent`, `snoozed_until`)
are invariant, as the record-update form of the conclusion shows. -/
theorem pending_update_surface (parse : DateutilParse) (db : List Task)
    (cid uid : String) (p : LLMTask) (raw model : String) (now : Int)
    (i : Nat) (existing : Task)
    (hlook : lookupLast db cid p.task_key = some i)
    (hget : db[i]? = some existing)
    (hst : existing.status = "pending") :
    upsert_tasks parse db cid uid [p] raw model now =
      db.set i { existing with
        title := p.title
        summary := p.summary
        due_at := _parse_due_at parse p.due_at
        notify_at := p.notify_at
        llm_model := model
        raw_llm_output := raw
        updated_at := now
        priority :=
          if _PRIORITY_RANK existing.priority < _PRIORITY_RANK p.priority then
            p.priority
          else existing.priority } :=
  upsert_single_pending parse db cid uid p raw model now i existing hlook hget hst

/-- Witness for C4 on a concrete pending row and proposal. -/
theorem pending_update_surface_witness :
    upsert_tasks (fun _ => .error .valueError)
      [{ user_id := "u1", conversation_id := "c1", task_key := "k1",
         title := "Old", category := "reply", priority := "low",
         summary := some "old summary", due_at := some 50, status := "pending",
         ignore_reason := none, llm_model := "m0", raw_llm_output := "r0",
         notify_at := ["a"], notifications_sent := ["a"],
         snoozed_until := none, created_at := 0, updated_at := 0 }]
      "c1" "u1"
      [{ task_key := "k1", title := "New", category := "reply",
         priority := "high", summary := some "new summary",
         due_at := some "bad", notify_at := ["b"] }]
      "r1" "m1" 100 =
    [{ user_id := "u1", conversation_id := "c1", task_key := "k1",
       title := "New", category := "reply", priority := "high",
       summary := some "new summary", due_at := none, status := "pending",
       ignore_reason := none, llm_model := "m1", raw_llm_output := "r1",
       notify_at := ["b"], notifications_sent := ["a"],
       snoozed_until := none, created_at := 0, updated_at := 100 }] := by
  rw [pending_update_surface (fun _ => .error .valueError) _ "c1" "u1" _ "r1" "m1" 100 0 _
    (by decide) rfl rfl]
  decide

/-- C10: the priority-bump comparison ranks any string outside
low/medium/high at 0, strictly below low: a pending row storing an
unrecognized priority is overwritten by any recognized proposed priority,
and an unrecognized proposed priority never overwrites a recognized
stored one. -/
theorem priority_rank_default_semantics :
    (∀ p : String, p ≠ "low" → p ≠ "medium" → p ≠ "high" → _PRIORITY_RANK p = 0) ∧
    (_PRIORITY_RANK "low" = 1 ∧ _PRIORITY_RANK "medium" = 2 ∧ _PRIORITY_RANK "high" = 3) ∧
    (∀ (parse : DateutilParse) (db : List Task) (cid uid : String) (p : LLMTask)
      (raw model : String) (now : Int) (i : Nat) (existing : Task),
      lookupLast db cid p.task_key = some i →
      db[i]? = some existing →
      existing.status = "pending" →
      existing.priority ≠ "low" → existing.priority ≠ "medium" →
      existing.priority ≠ "high" →
      (p.priority = "low" ∨ p.priority = "medium" ∨ p.priority = "high") →
      ((upsert_tasks parse db cid uid [p] raw model now)[i]?.map Task.priority) =
        some p.priority) ∧
    (∀ (parse : DateutilParse) (db : List Task) (cid uid : String) (p : LLMTask)
      (raw model : String) (now : Int) (i : Nat) (existing : Task),
      lookupLast db cid p.task_key = some i →
      db[i]? = some existing →
      existing.status = "pending" →
      p.priority ≠ "low" → p.priority ≠ "medium" → p.priority ≠ "high" →
      (existing.priority = "low" ∨ existing.priority = "medium" ∨
        existing.priority = "high") →
      ((upsert_tasks parse db cid uid [p] raw model now)[i]?.map Task.priority) =
        some existing.priority) := by
  have hrank0 : ∀ p : String, p ≠ "low" → p ≠ "medium" → p ≠ "high" →
      _PRIORITY_RANK p = 0 := by
    intro p h1 h2 h3
    unfold _PRIORITY_RANK
    rw [if_neg h3, if_neg h2, if_neg h1]
  refine ⟨hrank0, ⟨rfl, rfl, rfl⟩, ?_, ?_⟩
  · intro parse db cid uid p raw model now i existing hlook hget hst he1 he2 he3 hp
    rw [upsert_single_pending parse db cid uid p raw model now i existing hlook hget hst]
    have hi : i < db.length := (List.getElem?_eq_some.mp hget).1
    rw [List.getElem?_set_self hi]
    have h0 : _PRIORITY_RANK existing.priority = 0 := hrank0 _ he1 he2 he3
    have hpos : 0 < _PRIORITY_RANK p.priority := by
      rcases hp with h | h | h <;> rw [h] <;> decide
    simp only [pendingUpdate, Option.map_some]
    rw [if_pos (h0 ▸ hpos)]
    rfl
  · intro parse db cid uid p raw model now i existing hlook hget hst hp1 hp2 hp3 he
    rw [upsert_single_pending parse db cid uid p raw model now i existing hlook hget hst]
    have hi : i < db.length := (List.getElem?_eq_some.mp hget).1
    rw [List.getElem?_set_self hi]
    have h0 : _PRIORITY_RANK p.priority = 0 := hrank0 _ hp1 hp2 hp3
    simp only [pendingUpdate, Option.map_some]
    rw [if_neg (by rw [h0]; exact Nat.not_lt_zero _)]
    rfl

/-- Witness for C10: rank facts plus both replacement directions on a
concrete one-row database (stored priority "urgent" is replaced by
proposed "low"; stored "high" survives a proposed "urgent"). -/
theorem priority_rank_default_semantics_witness :
    _PRIORITY_RANK "urgent" = 0 ∧
    ((upsert_tasks (fun _ => .error .valueError)
      [{ user_id := "u1", conversation_id := "c1", task_key := "k1",
         title := "T", category := "reply", priority := "urgent",
         summary := none, due_at := none, status := "pending",
         ignore_reason := none, llm_model := "m0", raw_llm_output := "r0",
         notify_at := [], notifications_sent := [], snoozed_until := none,
         created_at := 0, updated_at := 0 }]
      "c1" "u1"
      [{ task_key := "k1", title := "T", category := "reply",
         priority := "low" }]
      "r1" "m1" 100)[0]?.map Task.priority) = some "low" ∧
    ((upsert_tasks (fun _ => .error .valueError)
      [{ user_id := "u1", conversation_id := "c1", task_key := "k1",
         title := "T", category := "reply", priority := "high",
         summary := none, due_at := none, status := "pending",
         ignore_reason := none, llm_model := "m0", raw_llm_output := "r0",
         notify_at := [], notifications_sent := [], snoozed_until := none,
         created_at := 0, updated_at := 0 }]
      "c1" "u1"
      [{ task_key := "k1", title := "T", category := "reply",
         priority := "urgent" }]
      "r1" "m1" 100)[0]?.map Task.priority) = some "high" :=
  ⟨priority_rank_default_semantics.1 "urgent" (by decide) (by decide) (by decide),
   priority_rank_default_semantics.2.2.1 _ _ "c1" "u1" _ "r1" "m1" 100 0 _
     (by decide) rfl rfl (by decide) (by decide) (by decide) (Or.inl rfl),
   priority_rank_default_semantics.2.2.2 _ _ "c1" "u1" _ "r1" "m1" 100 0 _
     (by decide) rfl rfl (by decide) (by decide) (by decide) (Or.inr (Or.inr rfl))⟩

/-- The argument bundle of one reconciliation call against a fixed
conversation, used to state properties of arbitrary call sequences. -/
structure UpsertCall where
  parse : DateutilParse
  user_id : String
  llm_tasks : List LLMTask
  raw_llm_output : String
  llm_model : String
  now : Int

/-- A sequence of reconciliation calls against the conversation `cid`,
applied in order to a starting row list. -/
def applyUpserts (cid : String) (calls : List UpsertCall) (db : List Task) : List Task :=
  calls.foldl
    (fun db c =>
      upsert_tasks c.parse db cid c.user_id c.llm_tasks c.raw_llm_output c.llm_model c.now)
    db

/-- C3: over any sequence of reconciliation calls against the same
conversation, the stored priority of an existing row never decreases in
the rank order low < medium < high (rank 0 for anything else); moreover a
proposed priority that does not outrank the stored one leaves the stored
priority string exactly unchanged. -/
theorem priority_monotone_over_reconciliation :
    (∀ (cid : String) (calls : List UpsertCall) (db : List Task) (i : Nat)
      (t t2 : Task),
      db[i]? = some t → (applyUpserts cid calls db)[i]? = some t2 →
      _PRIORITY_RANK t.priority ≤ _PRIORITY_RANK t2.priority) ∧
    (∀ (parse : DateutilParse) (db : List Task) (cid uid : String) (p : LLMTask)
      (raw model : String) (now : Int) (i : Nat) (existing : Task),
      lookupLast db cid p.task_key = some i →
      db[i]? = some existing →
      existing.status = "pending" →
      _PRIORITY_RANK p.priority ≤ _PRIORITY_RANK existing.priority →
      ((upsert_tasks parse db cid uid [p] raw model now)[i]?.map Task.priority) =
        some existing.priority) := by
  constructor
  · intro cid calls
    induction calls with
    | nil =>
      intro db i t t2 h1 h2
      simp only [applyUpserts, List.foldl_nil] at h2
      rw [h1] at h2
      cases h2
      exact le_refl _
    | cons c rest ih =>
      intro db i t t2 h1 h2
      obtain ⟨hlen, hR⟩ :=
        upsert_frame c.parse db cid c.user_id c.llm_tasks c.raw_llm_output c.llm_model c.now
      have hi : i < db.length := (List.getElem?_eq_some.mp h1).1
      obtain ⟨t1, ht1⟩ : ∃ a,
          (upsert_tasks c.parse db cid c.user_id c.llm_tasks c.raw_llm_output
            c.llm_model c.now)[i]? = some a :=
        ⟨_, List.getElem?_eq_getElem (lt_of_lt_of_le hi hlen)⟩
      have hstep := (hR i t t1 h1 ht1).2.2.2.2.2.2.2.2.2.1
      have hrest := ih _ i t1 t2 ht1 h2
      exact le_trans hstep hrest
  · intro parse db cid uid p raw model now i existing hlook hget hst hle
    rw [upsert_single_pending parse db cid uid p raw model now i existing hlook hget hst]
    have hi : i < db.length := (List.getElem?_eq_some.mp hget).1
    rw [List.getElem?_set_self hi]
    simp only [pendingUpdate, Option.map_some]
    rw [if_neg (not_lt_of_ge hle)]
    rfl

/-- Witness for C3: the spec scenario — a stored high priority and a later
medium proposal; the rank never drops and the stored priority stays
"high". -/
theorem priority_monotone_over_reconciliation_witness :
    _PRIORITY_RANK "high" ≤ _PRIORITY_RANK "high" ∧
    ((upsert_tasks (fun _ => .error .valueError)
      [{ user_id := "u1", conversation_id := "c1", task_key := "k1",
         title := "T", category := "reply", priority := "high",
         summary := none, due_at := none, status := "pending",
         ignore_reason := none, llm_model := "m0", raw_llm_output := "r0",
         notify_at := [], notifications_sent := [], snoozed_until := none,
         created_at := 0, updated_at := 0 }]
      "c1" "u1"
      [{ task_key := "k1", title := "T", category := "reply",
         priority := "medium" }]
      "r1" "m1" 100)[0]?.map Task.priority) = some "high" :=
  ⟨priority_monotone_over_reconciliation.1 "c1" []
      [{ user_id := "u1", conversation_id := "c1", task_key := "k1",
         title := "T", category := "reply", priority := "high",
         summary := none, due_at := none, status := "pending",
         ignore_reason := none, llm_model := "m0", raw_llm_output := "r0",
         notify_at := [], notifications_sent := [], snoozed_until := none,
         created_at := 0, updated_at := 0 }]
      0 _ _ rfl rfl,
   priority_monotone_over_reconciliation.2 _ _ "c1" "u1" _ "r1" "m1" 100 0 _
      (by decide) rfl rfl (by decide)⟩

/-! ### Idempotence of reconciliation (claim C2) -/

/-- The reconciliation key pair of a row, under the table's unique
constraint `uq_tasks_conversation_task_key`. -/
def taskKey2 (t : Task) : String × String := (t.conversation_id, t.task_key)

/-- `upsert_tasks` through its `db.commit()` (`task_engine.py`, line 109):
the commit persists the session rows only when no two rows share a
`(conversation_id, task_key)` pair — the unique constraint
`uq_tasks_conversation_task_key` of `models/task.py` (lines 44-46) and
migration `c4d5e6f7a8b9`; otherwise the INSERTs violate it, the commit
raises `IntegrityError`, and the transaction rolls back leaving the
committed table unchanged. -/
def upsert_tasks_commit (parse : DateutilParse) (db : List Task)
    (conversation_id user_id : String) (llm_tasks : List LLMTask)
    (raw_llm_output llm_model : String) (now : Int) : Except String (List Task) :=
  let result := upsert_tasks parse db conversation_id user_id llm_tasks
    raw_llm_output llm_model now
  if (result.map taskKey2).Nodup then .ok result else .error "IntegrityError"

/-- The committed table after one `upsert_tasks` call: the session rows
when the commit succeeds, the unchanged previous table when the commit
raises `IntegrityError` and rolls back. -/
def upsertCommitted (parse : DateutilParse) (db : List Task)
    (conversation_id user_id : String) (llm_tasks : List LLMTask)
    (raw_llm_output llm_model : String) (now : Int) : List Task :=
  match upsert_tasks_commit parse db conversation_id user_id llm_tasks
    raw_llm_output llm_model now with
  | .ok db2 => db2
  | .error _ => db

theorem set_getElem?_eq {α : Type} (l : List α) (i : Nat) (a : α)
    (h : l[i]? = some a) : l.set i a = l := by
  apply List.ext_getElem?
  intro j
  by_cases hij : j = i
  · subst hij
    rw [List.getElem?_set_self (List.getElem?_eq_some.mp h).1]
    exact h.symm
  · rw [List.getElem?_set_ne (fun hh => hij hh.symm)]

/-- The per-row effect of one loop iteration on a matched existing row:
the four status branches of `task_engine.py`, lines 83-107. -/
def rowUpdate (parse : DateutilParse) (raw_llm_output llm_model : String)
    (now : Int) (existing : Task) (llm_task : LLMTask) : Task :=
  if existing.status = "ignored" then existing
  else if existing.status = "done" ∨ existing.status = "snoozed" then
    { existing with
      llm_model := llm_model
      raw_llm_output := raw_llm_output
      updated_at := now }
  else pendingUpdate parse existing llm_task raw_llm_output llm_model now

/-- The updates a row receives from the proposals that target it, in
batch order. -/
def applySched (parse : DateutilParse) (raw_llm_output llm_model : String)
    (now : Int) (r : Task) (ps : List LLMTask) : Task :=
  ps.foldl (rowUpdate parse raw_llm_output llm_model now) r

theorem upsertStep_eq_set (parse : DateutilParse) (db0 : List Task)
    (cid uid raw model : String) (now : Int) (db : List Task) (p : LLMTask)
    (i : Nat) (e : Task)
    (hlook : lookupLast db0 cid p.task_key = some i) (hget : db[i]? = some e) :
    upsertStep parse db0 cid uid raw model now db p =
      db.set i (rowUpdate parse raw model now e p) := by
  unfold upsertStep rowUpdate
  rw [hlook]
  simp only []
  rw [hget]
  simp only []
  by_cases hig : e.status = "ignored"
  · rw [if_pos hig, if_pos hig]
    exact (set_getElem?_eq db i e hget).symm
  · rw [if_neg hig, if_neg hig]
    by_cases hds : e.status = "done" ∨ e.status = "snoozed"
    · rw [if_pos hds, if_pos hds]
    · rw [if_neg hds, if_neg hds]

theorem upsertStep_eq_insert (parse : DateutilParse) (db0 : List Task)
    (cid uid raw model : String) (now : Int) (db : List Task) (p : LLMTask)
    (hlook : lookupLast db0 cid p.task_key = none) :
    upsertStep parse db0 cid uid raw model now db p =
      db ++ [newTaskRow parse cid uid p raw model now] := by
  unfold upsertStep
  rw [hlook]

theorem rowUpdate_key (parse : DateutilParse) (raw model : String) (now : Int)
    (e : Task) (p : LLMTask) :
    taskKey2 (rowUpdate parse raw model now e p) = taskKey2 e := by
  unfold rowUpdate pendingUpdate taskKey2
  split
  · rfl
  · split
    · rfl
    · rfl

theorem rowUpdate_status (parse : DateutilParse) (raw model : String) (now : Int)
    (e : Task) (p : LLMTask) :
    (rowUpdate parse raw model now e p).status = e.status := by
  unfold rowUpdate pendingUpdate
  split
  · rfl
  · split
    · rfl
    · rfl

theorem applySched_key (parse : DateutilParse) (raw model : String) (now : Int) :
    ∀ (ps : List LLMTask) (r : Task),
      taskKey2 (applySched parse raw model now r ps) = taskKey2 r := by
  intro ps
  induction ps with
  | nil => intro r; rfl
  | cons p ps ih =>
    intro r
    show taskKey2 (applySched parse raw model now (rowUpdate parse raw model now r p) ps) = _
    rw [ih, rowUpdate_key]

/-- Decomposition of the reconciliation loop relative to its pre-loop
snapshot `db0`: each existing row absorbs, in order, exactly the
proposals whose snapshot lookup targets it, and the proposals the
snapshot does not know are appended as fresh inserts in batch order. -/
theorem upsert_fold_split (parse : DateutilParse) (db0 : List Task)
    (cid uid raw model : String) (now : Int) (N : Nat)
    (hN : ∀ (key : String) (i : Nat), lookupLast db0 cid key = some i → i < N) :
    ∀ (ps : List LLMTask) (db : List Task), N ≤ db.length →
      (ps.foldl (upsertStep parse db0 cid uid raw model now) db).length =
        db.length + (ps.filter fun p => (lookupLast db0 cid p.task_key).isNone).length ∧
      (∀ i : Nat, i < db.length →
        (ps.foldl (upsertStep parse db0 cid uid raw model now) db)[i]? =
          (db[i]?).map fun r =>
            applySched parse raw model now r
              (ps.filter fun p => lookupLast db0 cid p.task_key = some i)) ∧
      (∀ jj : Nat,
        (ps.foldl (upsertStep parse db0 cid uid raw model now) db)[db.length + jj]? =
          ((ps.filter fun p => (lookupLast db0 cid p.task_key).isNone).map
            fun p => newTaskRow parse cid uid p raw model now)[jj]?) := by
  intro ps
  induction ps with
  | nil =>
    intro db hlen
    refine ⟨by simp, fun i hi => ?_, fun jj => ?_⟩
    · cases h : db[i]? <;> simp only [List.foldl_nil, List.filter_nil, h] <;> rfl
    · simp only [List.foldl_nil, List.filter_nil, List.map_nil, List.getElem?_nil]
      rw [List.getElem?_eq_none (by omega)]
  | cons p ps ih =>
    intro db hlen
    simp only [List.foldl_cons]
    cases hlook : lookupLast db0 cid p.task_key with
    | none =>
      rw [upsertStep_eq_insert parse db0 cid uid raw model now db p hlook]
      have hfreshc : ((p :: ps).filter fun q => (lookupLast db0 cid q.task_key).isNone) =
          p :: (ps.filter fun q => (lookupLast db0 cid q.task_key).isNone) := by
        rw [List.filter_cons, if_pos (by rw [hlook]; rfl)]
      have hschedc : ∀ i : Nat, ((p :: ps).filter fun q =>
          lookupLast db0 cid q.task_key = some i) =
          ps.filter fun q => lookupLast db0 cid q.task_key = some i := by
        intro i
        rw [List.filter_cons, if_neg (by rw [hlook]; simp)]
      obtain ⟨ihA, ihB, ihC⟩ := ih (db ++ [newTaskRow parse cid uid p raw model now])
        (le_trans hlen (by simp))
      refine ⟨?_, fun i hi => ?_, fun jj => ?_⟩
      · rw [ihA, hfreshc]
        simp only [List.length_append, List.length_cons, List.length_nil]
        omega
      · rw [ihB i (by simp only [List.length_append, List.length_cons, List.length_nil]; omega),
          List.getElem?_append_left hi, hschedc i]
      · rw [hfreshc]
        have hempty : (ps.filter fun q =>
            lookupLast db0 cid q.task_key = some db.length) = [] := by
          rw [List.filter_eq_nil]
          intro q _
          simp only [decide_eq_true_eq]
          intro hq
          exact absurd (hN q.task_key db.length hq) (by omega)
        cases jj with
        | zero =>
          rw [Nat.add_zero,
            ihB db.length (by simp only [List.length_append, List.length_cons, List.length_nil]; omega),
            hempty, List.getElem?_append_right (le_refl _)]
          simp [applySched]
        | succ n =>
          have harith : db.length + (n + 1) =
              (db ++ [newTaskRow parse cid uid p raw model now]).length + n := by
            simp only [List.length_append, List.length_cons, List.length_nil]
            omega
          rw [harith, ihC n, List.map_cons, List.getElem?_cons_succ]
    | some i0 =>
      have hi0 : i0 < db.length := lt_of_lt_of_le (hN p.task_key i0 hlook) hlen
      obtain ⟨e, he⟩ : ∃ e, db[i0]? = some e := ⟨db[i0], List.getElem?_eq_getElem hi0⟩
      rw [upsertStep_eq_set parse db0 cid uid raw model now db p i0 e hlook he]
      have hfreshc : ((p :: ps).filter fun q => (lookupLast db0 cid q.task_key).isNone) =
          ps.filter fun q => (lookupLast db0 cid q.task_key).isNone := by
        rw [List.filter_cons, if_neg (by rw [hlook]; simp)]
      have hschedc : ∀ i : Nat, i ≠ i0 → ((p :: ps).filter fun q =>
          lookupLast db0 cid q.task_key = some i) =
          ps.filter fun q => lookupLast db0 cid q.task_key = some i := by
        intro i hi
        rw [List.filter_cons, if_neg (by
          rw [hlook]
          simp only [decide_eq_true_eq, Option.some.injEq]
          exact fun hh => hi hh.symm)]
      have hschedc0 : ((p :: ps).filter fun q =>
          lookupLast db0 cid q.task_key = some i0) =
          p :: ps.filter fun q => lookupLast db0 cid q.task_key = some i0 := by
        rw [List.filter_cons, if_pos (by rw [hlook]; simp)]
      have hlen' : (db.set i0 (rowUpdate parse raw model now e p)).length = db.length :=
        List.length_set db i0 _
      obtain ⟨ihA, ihB, ihC⟩ := ih (db.set i0 (rowUpdate parse raw model now e p))
        (by rw [hlen']; exact hlen)
      refine ⟨?_, fun i hi => ?_, fun jj => ?_⟩
      · rw [ihA, hfreshc, hlen']
      · by_cases hii : i = i0
        · subst hii
          rw [ihB i (by rw [hlen']; exact hi), hschedc0,
            show (db.set i (rowUpdate parse raw model now e p))[i]? =
              some (rowUpdate parse raw model now e p) from List.getElem?_set_self hi0,
            he]
          rfl
        · rw [ihB i (by rw [hlen']; exact hi), hschedc i hii,
            show (db.set i0 (rowUpdate parse raw model now e p))[i]? = db[i]? from
              List.getElem?_set_ne (fun hh => hii hh.symm)]
      · rw [hfreshc, show db.length + jj =
          (db.set i0 (rowUpdate parse raw model now e p)).length + jj from by rw [hlen'],
          ihC jj]

theorem rowMatches_iff_key (cid key : String) (t : Task) :
    rowMatches cid key t = true ↔ taskKey2 t = (cid, key) := by
  unfold rowMatches taskKey2
  constructor
  · intro h
    simp only [Bool.and_eq_true, beq_iff_eq] at h
    rw [h.1, h.2]
  · intro h
    simp only [Prod.mk.injEq] at h
    simp [h.1, h.2]

theorem rowMatches_key_congr (cid key : String) (t t2 : Task)
    (h : taskKey2 t = taskKey2 t2) :
    rowMatches cid key t = rowMatches cid key t2 := by
  unfold rowMatches
  unfold taskKey2 at h
  simp only [Prod.mk.injEq] at h
  rw [h.1, h.2]

/-- `lookupLast` depends on the rows only through their key pairs. -/
theorem lookupLast_map_eq (l l2 : List Task) (cid key : String)
    (h : l.map taskKey2 = l2.map taskKey2) :
    lookupLast l cid key = lookupLast l2 cid key := by
  have hlen : l.length = l2.length := by
    have := congrArg List.length h
    simpa using this
  refine lookupLast_congr l l2 cid key hlen ?_
  intro i t t2 ht ht2
  refine rowMatches_key_congr cid key t t2 ?_
  have h1 : (l.map taskKey2)[i]? = some (taskKey2 t) := by
    rw [List.getElem?_map, ht]; rfl
  have h2 : (l2.map taskKey2)[i]? = some (taskKey2 t2) := by
    rw [List.getElem?_map, ht2]; rfl
  rw [h, h2] at h1
  exact (Option.some.injEq .. ▸ h1).symm ▸ rfl

theorem lookupLast_eq_none_of (l : List Task) (cid key : String)
    (h : ∀ (i : Nat) (t : Task), l[i]? = some t → rowMatches cid key t = false) :
    lookupLast l cid key = none := by
  cases hl : lookupLast l cid key with
  | none => rfl
  | some j =>
    obtain ⟨_, t, ht, hm, _⟩ := lookupLast_some_spec l cid key j hl
    rw [h j t ht] at hm
    cases hm

/-- The general append law for the snapshot lookup. -/
theorem lookupLast_append (a b : List Task) (cid key : String) :
    lookupLast (a ++ b) cid key =
      match lookupLast b cid key with
      | some j => some (a.length + j)
      | none => lookupLast a cid key := by
  induction b using List.reverseRecOn with
  | nil => simp [lookupLast_nil]
  | append_singleton b t ihb =>
    rw [show a ++ (b ++ [t]) = (a ++ b) ++ [t] from by simp, lookupLast_concat,
      lookupLast_concat]
    cases hm : rowMatches cid key t
    · rw [if_neg (by simp [hm]), if_neg (by simp [hm])]
      exact ihb
    · rw [if_pos rfl, if_pos rfl]
      simp

/-- In a table whose key pairs are pairwise distinct, a matching row is
the last matching row. -/
theorem lookupLast_of_nodup_mem (l : List Task) (cid key : String) (j : Nat) (t : Task)
    (hnd : (l.map taskKey2).Nodup)
    (hj : l[j]? = some t) (hm : rowMatches cid key t = true) :
    lookupLast l cid key = some j := by
  refine lookupLast_last l cid key j t hj hm ?_
  intro i t2 hji hget
  by_contra hcc
  rw [Bool.not_eq_false] at hcc
  have hk1 : taskKey2 t = (cid, key) := (rowMatches_iff_key cid key t).mp hm
  have hk2 : taskKey2 t2 = (cid, key) := (rowMatches_iff_key cid key t2).mp hcc
  have h1 : (l.map taskKey2)[j]? = some (cid, key) := by
    simp [List.getElem?_map, hj, hk1]
  have h2 : (l.map taskKey2)[i]? = some (cid, key) := by
    simp [List.getElem?_map, hget, hk2]
  have hji2 : j ≠ i := Nat.ne_of_lt hji
  obtain ⟨hjlt, e1⟩ := List.getElem?_eq_some.mp h1
  obtain ⟨hilt, e2⟩ := List.getElem?_eq_some.mp h2
  exact hji2 ((List.Nodup.getElem_inj_iff hnd).mp (e1.trans e2.symm))

/-- The provenance-only update of the `done`/`snoozed` branch
(`task_engine.py`, lines 87-92). -/
def provUpdate (raw_llm_output llm_model : String) (now : Int) (r : Task) : Task :=
  { r with
    llm_model := llm_model
    raw_llm_output := raw_llm_output
    updated_at := now }

/-- The priority-bump comparison of lines 103-106. -/
def bumpPrio (x : String) (p : LLMTask) : String :=
  if _PRIORITY_RANK x < _PRIORITY_RANK p.priority then p.priority else x

/-- The catch-all update branch with its overwritten surface made
explicit: all non-priority written fields come from the proposal `q`, the
priority from the running bump fold. -/
def pendApply (parse : DateutilParse) (raw_llm_output llm_model : String)
    (now : Int) (r : Task) (q : LLMTask) (pr : String) : Task :=
  { r with
    title := q.title
    summary := q.summary
    due_at := _parse_due_at parse q.due_at
    notify_at := q.notify_at
    llm_model := llm_model
    raw_llm_output := raw_llm_output
    updated_at := now
    priority := pr }

theorem applySched_ignored (parse : DateutilParse) (raw model : String) (now : Int) :
    ∀ (S : List LLMTask) (r : Task), r.status = "ignored" →
      applySched parse raw model now r S = r := by
  intro S
  induction S with
  | nil => intro r _; rfl
  | cons q S ih =>
    intro r h
    show applySched parse raw model now (rowUpdate parse raw model now r q) S = r
    rw [show rowUpdate parse raw model now r q = r from by unfold rowUpdate; rw [if_pos h]]
    exact ih r h

theorem applySched_ds (parse : DateutilParse) (raw model : String) (now : Int) :
    ∀ (S : List LLMTask) (q : LLMTask) (r : Task),
      r.status = "done" ∨ r.status = "snoozed" →
      applySched parse raw model now r (q :: S) = provUpdate raw model now r := by
  intro S
  induction S with
  | nil =>
    intro q r h
    show rowUpdate parse raw model now r q = _
    unfold rowUpdate provUpdate
    rw [if_neg (by rcases h with h | h <;> rw [h] <;> decide), if_pos h]
  | cons q2 S ih =>
    intro q r h
    show applySched parse raw model now (rowUpdate parse raw model now r q) (q2 :: S) = _
    rw [show rowUpdate parse raw model now r q = provUpdate raw model now r from by
      unfold rowUpdate provUpdate
      rw [if_neg (by rcases h with h | h <;> rw [h] <;> decide), if_pos h]]
    rw [ih q2 (provUpdate raw model now r) h]
    rfl

theorem applySched_pend (parse : DateutilParse) (raw model : String) (now : Int) :
    ∀ (S : List LLMTask) (q : LLMTask) (r : Task),
      r.status ≠ "ignored" → r.status ≠ "done" → r.status ≠ "snoozed" →
      applySched parse raw model now r (q :: S) =
        pendApply parse raw model now r ((q :: S).getLast (List.cons_ne_nil q S))
          (List.foldl bumpPrio r.priority (q :: S)) := by
  intro S
  induction S with
  | nil =>
    intro q r h1 h2 h3
    show rowUpdate parse raw model now r q = _
    unfold rowUpdate pendingUpdate pendApply bumpPrio
    rw [if_neg h1, if_neg (by rintro (h | h); exact h2 h; exact h3 h)]
    rfl
  | cons q2 S ih =>
    intro q r h1 h2 h3
    show applySched parse raw model now (rowUpdate parse raw model now r q) (q2 :: S) = _
    have hru : rowUpdate parse raw model now r q =
        pendingUpdate parse r q raw model now := by
      unfold rowUpdate
      rw [if_neg h1, if_neg (by rintro (h | h); exact h2 h; exact h3 h)]
    rw [hru]
    have hst : (pendingUpdate parse r q raw model now).status = r.status := rfl
    rw [ih q2 (pendingUpdate parse r q raw model now)
      (hst ▸ h1) (hst ▸ h2) (hst ▸ h3)]
    rw [List.getLast_cons (List.cons_ne_nil q2 S)]
    rfl

theorem rank_le_foldl_bump : ∀ (S : List LLMTask) (x : String),
    _PRIORITY_RANK x ≤ _PRIORITY_RANK (List.foldl bumpPrio x S) := by
  intro S
  induction S with
  | nil => intro x; exact le_refl _
  | cons q S ih =>
    intro x
    refine le_trans ?_ (ih (bumpPrio x q))
    unfold bumpPrio
    split
    · omega
    · exact le_refl _

theorem rank_mem_le_foldl_bump : ∀ (S : List LLMTask) (x : String) (q : LLMTask),
    q ∈ S → _PRIORITY_RANK q.priority ≤ _PRIORITY_RANK (List.foldl bumpPrio x S) := by
  intro S
  induction S with
  | nil => intro x q h; exact absurd h (List.not_mem_nil q)
  | cons q2 S ih =>
    intro x q hq
    rcases List.mem_cons.mp hq with rfl | hq
    · refine le_trans ?_ (rank_le_foldl_bump S (bumpPrio x q))
      unfold bumpPrio
      split
      · exact le_refl _
      · omega
    · exact ih (bumpPrio x q2) q hq

theorem foldl_bump_fix : ∀ (S : List LLMTask) (x : String),
    (∀ q ∈ S, _PRIORITY_RANK q.priority ≤ _PRIORITY_RANK x) →
    List.foldl bumpPrio x S = x := by
  intro S
  induction S with
  | nil => intro x _; rfl
  | cons q S ih =>
    intro x h
    show List.foldl bumpPrio (bumpPrio x q) S = x
    rw [show bumpPrio x q = x from by
      unfold bumpPrio
      rw [if_neg (not_lt.mpr (h q (List.mem_cons_self q S)))]]
    exact ih x fun q2 hq2 => h q2 (List.mem_cons_of_mem q hq2)

/-- One batch of updates is absorbing: replaying the same update sequence
on a row that already received it changes nothing. -/
theorem applySched_idem (parse : DateutilParse) (raw model : String) (now : Int)
    (S : List LLMTask) (r : Task) :
    applySched parse raw model now (applySched parse raw model now r S) S =
      applySched parse raw model now r S := by
  cases S with
  | nil => rfl
  | cons q S =>
    by_cases hig : r.status = "ignored"
    · rw [applySched_ignored parse raw model now (q :: S) r hig,
        applySched_ignored parse raw model now (q :: S) r hig]
    · by_cases hds : r.status = "done" ∨ r.status = "snoozed"
      · rw [applySched_ds parse raw model now S q r hds,
          applySched_ds parse raw model now S q (provUpdate raw model now r) hds]
        rfl
      · push_neg at hds
        rw [applySched_pend parse raw model now S q r hig hds.1 hds.2]
        have hstp : (pendApply parse raw model now r
            ((q :: S).getLast (List.cons_ne_nil q S))
            (List.foldl bumpPrio r.priority (q :: S))).status = r.status := rfl
        rw [applySched_pend parse raw model now S q
          (pendApply parse raw model now r ((q :: S).getLast (List.cons_ne_nil q S))
            (List.foldl bumpPrio r.priority (q :: S)))
          (hstp ▸ hig) (hstp ▸ hds.1) (hstp ▸ hds.2)]
        have hpr : (pendApply parse raw model now r
            ((q :: S).getLast (List.cons_ne_nil q S))
            (List.foldl bumpPrio r.priority (q :: S))).priority =
            List.foldl bumpPrio r.priority (q :: S) := rfl
        rw [hpr]
        rw [foldl_bump_fix (q :: S) _
          (fun q2 hq2 => rank_mem_le_foldl_bump (q :: S) r.priority q2 hq2)]
        rfl

/-- Re-reconciling the proposal that created a fresh row is a no-op. -/
theorem rowUpdate_newRow (parse : DateutilParse) (cid uid raw model : String)
    (now : Int) (p : LLMTask) :
    rowUpdate parse raw model now (newTaskRow parse cid uid p raw model now) p =
      newTaskRow parse cid uid p raw model now := by
  unfold rowUpdate
  by_cases hcat : p.category = "ignored"
  · rw [if_pos (by unfold newTaskRow; simp [hcat])]
  · have hst : (newTaskRow parse cid uid p raw model now).status = "pending" := by
      unfold newTaskRow
      simp [hcat]
    rw [if_neg (by rw [hst]; decide), if_neg (by rw [hst]; decide)]
    unfold pendingUpdate newTaskRow
    simp [ite_self]

theorem filter_key_singleton {α β : Type} [DecidableEq β] (f : α → β) :
    ∀ (l : List α) (j : Nat) (x : α), (l.map f).Nodup → l[j]? = some x →
      l.filter (fun y => f y = f x) = [x] := by
  intro l
  induction l with
  | nil =>
    intro j x _ h
    rw [List.getElem?_nil] at h
    cases h
  | cons a l ih =>
    intro j x hnd hj
    rw [List.map_cons, List.nodup_cons] at hnd
    cases j with
    | zero =>
      rw [List.getElem?_cons_zero] at hj
      cases hj
      rw [List.filter_cons, if_pos (by simp)]
      have hrest : l.filter (fun y => f y = f a) = [] := by
        rw [List.filter_eq_nil]
        intro b hb
        simp only [decide_eq_true_eq]
        intro hfb
        exact hnd.1 (hfb ▸ List.mem_map_of_mem f hb)
      rw [hrest]
    | succ n =>
      rw [List.getElem?_cons_succ] at hj
      have hxl : x ∈ l := List.getElem?_mem hj
      rw [List.filter_cons, if_neg (by
        simp only [decide_eq_true_eq]
        intro hfa
        exact hnd.1 (hfa ▸ List.mem_map_of_mem f hxl))]
      exact ih n x hnd.2 hj

/-- The committed table of one successful reconciliation call is a fixed
point of a second call with the same arguments. -/
theorem upsert_tasks_fixpoint (parse : DateutilParse) (db : List Task)
    (cid uid : String) (ts : List LLMTask) (raw model : String) (now : Int)
    (hN1 : ((upsert_tasks parse db cid uid ts raw model now).map taskKey2).Nodup) :
    upsert_tasks parse (upsert_tasks parse db cid uid ts raw model now)
      cid uid ts raw model now =
      upsert_tasks parse db cid uid ts raw model now := by
  have hbound1 : ∀ (key : String) (i : Nat),
      lookupLast db cid key = some i → i < db.length :=
    fun key i h => (lookupLast_some_spec db cid key i h).1
  obtain ⟨hlen1, hpre1, happ1⟩ := upsert_fold_split parse db cid uid raw model now
    db.length hbound1 ts db (le_refl _)
  have hN1f : ((ts.foldl (upsertStep parse db cid uid raw model now) db).map
      taskKey2).Nodup := hN1
  show ts.foldl (upsertStep parse
      (ts.foldl (upsertStep parse db cid uid raw model now) db) cid uid raw model now)
      (ts.foldl (upsertStep parse db cid uid raw model now) db) =
    ts.foldl (upsertStep parse db cid uid raw model now) db
  set F := ts.filter (fun p => (lookupLast db cid p.task_key).isNone) with hF
  set inserts := F.map (fun p => newTaskRow parse cid uid p raw model now) with hIns
  set db1 := ts.foldl (upsertStep parse db cid uid raw model now) db with hDb1
  have hkeys : db1.map taskKey2 = (db ++ inserts).map taskKey2 := by
    apply List.ext_getElem?
    intro i
    rcases lt_or_ge i db.length with hi | hi
    · rw [List.getElem?_map, List.getElem?_map, hpre1 i hi,
        List.getElem?_append_left hi]
      cases h : db[i]? with
      | none => rfl
      | some r =>
        show some (taskKey2 (applySched parse raw model now r _)) = some (taskKey2 r)
        rw [applySched_key]
    · obtain ⟨jj, rfl⟩ : ∃ jj, i = db.length + jj := ⟨i - db.length, by omega⟩
      rw [List.getElem?_map, List.getElem?_map, happ1 jj,
        List.getElem?_append_right hi, Nat.add_sub_cancel_left]
  have hlook1 : ∀ key : String,
      lookupLast db1 cid key = lookupLast (db ++ inserts) cid key :=
    fun key => lookupLast_map_eq db1 (db ++ inserts) cid key hkeys
  have hsplitnd : ((db.map taskKey2) ++ (inserts.map taskKey2)).Nodup := by
    rw [← List.map_append, ← hkeys]
    exact hN1f
  have hndIns : (inserts.map taskKey2).Nodup := (List.nodup_append.mp hsplitnd).2.1
  have hFkeys : (F.map (fun p => p.task_key)).Nodup := by
    have h1 : inserts.map taskKey2 =
        (F.map fun p => p.task_key).map fun k => (cid, k) := by
      rw [hIns, List.map_map, List.map_map]
      rfl
    rw [h1] at hndIns
    exact List.Nodup.of_map _ hndIns
  have htgt2some : ∀ (p : LLMTask) (i : Nat), lookupLast db cid p.task_key = some i →
      lookupLast db1 cid p.task_key = some i := by
    intro p i h
    rw [hlook1, lookupLast_append]
    have hnone : lookupLast inserts cid p.task_key = none := by
      refine lookupLast_eq_none_of _ _ _ ?_
      intro ii t ht
      rw [hIns, List.getElem?_map] at ht
      cases hF2 : F[ii]? with
      | none => rw [hF2] at ht; cases ht
      | some q =>
        rw [hF2] at ht
        have ht2 : some (newTaskRow parse cid uid q raw model now) = some t := ht
        cases ht2
        by_contra hcc
        rw [Bool.not_eq_false] at hcc
        have hkq : q.task_key = p.task_key := by
          have hh := (rowMatches_iff_key cid p.task_key _).mp hcc
          unfold taskKey2 newTaskRow at hh
          simp only [Prod.mk.injEq] at hh
          exact hh.2
        have hqF : q ∈ F := List.getElem?_mem hF2
        rw [hF] at hqF
        have hfr := (List.mem_filter.mp hqF).2
        rw [hkq, h] at hfr
        cases hfr
    rw [hnone]
    exact h
  have htgt2fresh : ∀ p ∈ ts, lookupLast db cid p.task_key = none →
      ∃ jj, F[jj]? = some p ∧
        lookupLast db1 cid p.task_key = some (db.length + jj) := by
    intro p hp hnone
    have hpF : p ∈ F := by
      rw [hF]
      exact List.mem_filter.mpr ⟨hp, by rw [hnone]; rfl⟩
    obtain ⟨jj, hjj⟩ := List.getElem?_of_mem hpF
    refine ⟨jj, hjj, ?_⟩
    rw [hlook1, lookupLast_append]
    have hmatch : lookupLast inserts cid p.task_key = some jj := by
      refine lookupLast_of_nodup_mem inserts cid p.task_key jj
        (newTaskRow parse cid uid p raw model now) hndIns ?_ ?_
      · rw [hIns, List.getElem?_map, hjj]
        rfl
      · unfold rowMatches newTaskRow
        simp
    rw [hmatch]
  have hnofresh2 :
      (ts.filter fun p => (lookupLast db1 cid p.task_key).isNone) = [] := by
    rw [List.filter_eq_nil]
    intro p hp
    cases h : lookupLast db cid p.task_key with
    | some i =>
      rw [htgt2some p i h]
      simp
    | none =>
      obtain ⟨jj, _, hb⟩ := htgt2fresh p hp h
      rw [hb]
      simp
  have hbound2 : ∀ (key : String) (i : Nat),
      lookupLast db1 cid key = some i → i < db1.length :=
    fun key i h => (lookupLast_some_spec db1 cid key i h).1
  obtain ⟨hlen2, hpre2, happ2⟩ := upsert_fold_split parse db1 cid uid raw model now
    db1.length hbound2 ts db1 (le_refl _)
  rw [hnofresh2] at hlen2
  have hlen2f : (ts.foldl (upsertStep parse db1 cid uid raw model now) db1).length =
      db1.length := by
    rw [hlen2]
    simp
  apply List.ext_getElem?
  intro i
  rcases lt_or_ge i db1.length with hi | hi
  · rw [hpre2 i hi]
    rcases lt_or_ge i db.length with hid | hid
    · have hsched : (ts.filter fun p => lookupLast db1 cid p.task_key = some i) =
          ts.filter fun p => lookupLast db cid p.task_key = some i := by
        apply List.filter_congr
        intro p hp
        refine decide_eq_decide.mpr ?_
        constructor
        · intro h2
          cases h3 : lookupLast db cid p.task_key with
          | some i2 =>
            have h4 := htgt2some p i2 h3
            rw [h4] at h2
            exact h2
          | none =>
            obtain ⟨jj, _, hb⟩ := htgt2fresh p hp h3
            rw [hb] at h2
            injection h2 with h2e
            exact absurd hid (by omega)
        · intro h2
          exact htgt2some p i h2
      rw [hsched, hpre1 i hid]
      cases hdb : db[i]? with
      | none => rfl
      | some r =>
        show some (applySched parse raw model now (applySched parse raw model now r
            (ts.filter fun p => lookupLast db cid p.task_key = some i))
            (ts.filter fun p => lookupLast db cid p.task_key = some i)) =
          some (applySched parse raw model now r
            (ts.filter fun p => lookupLast db cid p.task_key = some i))
        rw [applySched_idem]
    · obtain ⟨jj, rfl⟩ : ∃ jj, i = db.length + jj := ⟨i - db.length, by omega⟩
      have hjlt : jj < F.length := by
        rw [hlen1] at hi
        omega
      obtain ⟨q, hq⟩ : ∃ q, F[jj]? = some q := ⟨_, List.getElem?_eq_getElem hjlt⟩
      have hIq : inserts[jj]? = some (newTaskRow parse cid uid q raw model now) := by
        rw [hIns, List.getElem?_map, hq]
        rfl
      have hsched2 : (ts.filter fun p =>
          lookupLast db1 cid p.task_key = some (db.length + jj)) =
          F.filter fun y => y.task_key = q.task_key := by
        rw [hF, List.filter_filter]
        apply List.filter_congr
        intro p hp
        refine Bool.eq_iff_iff.mpr ?_
        simp only [decide_eq_true_eq, Bool.and_eq_true, Option.isNone_iff_eq_none]
        constructor
        · intro h2
          cases h3 : lookupLast db cid p.task_key with
          | some i2 =>
            have h4 := htgt2some p i2 h3
            rw [h4] at h2
            cases h2
            exact absurd (hbound1 p.task_key _ h3) (by omega)
          | none =>
            obtain ⟨jj2, hF2, hb⟩ := htgt2fresh p hp h3
            rw [hb] at h2
            injection h2 with h2
            have hjje : jj2 = jj := by omega
            subst hjje
            rw [hq] at hF2
            cases hF2
            exact ⟨rfl, rfl⟩
        · rintro ⟨hkey, hnone2⟩
          obtain ⟨jj3, hF3, hb3⟩ := htgt2fresh p hp hnone2
          have e1 : (F.map fun y => y.task_key)[jj3]? = some q.task_key := by
            rw [List.getElem?_map, hF3]
            simp [hkey]
          have e2 : (F.map fun y => y.task_key)[jj]? = some q.task_key := by
            rw [List.getElem?_map, hq]
            rfl
          obtain ⟨hl3, g1⟩ := List.getElem?_eq_some.mp e1
          obtain ⟨hl4, g2⟩ := List.getElem?_eq_some.mp e2
          have hjje : jj3 = jj :=
            (List.Nodup.getElem_inj_iff hFkeys).mp (g1.trans g2.symm)
          rw [hjje] at hb3
          exact hb3
      rw [happ1 jj, hIq, hsched2,
        filter_key_singleton LLMTask.task_key F jj q hFkeys hq]
      show some (rowUpdate parse raw model now
          (newTaskRow parse cid uid q raw model now) q) =
        some (newTaskRow parse cid uid q raw model now)
      rw [rowUpdate_newRow]
  · rw [List.getElem?_eq_none (by rw [hlen2f]; omega),
      List.getElem?_eq_none hi]

/-- C2: `upsert_tasks` is idempotent at the committed-state level, with
its `db.commit()` modelled under the table's unique constraint.  The
committed table after running the call twice (the second call on the
state the first left behind) equals the committed table after one call —
no row is created and no field changes on the second call; and whenever
the first call commits successfully, the second call commits the
identical table again.  (When the batch makes the commit raise
`IntegrityError` — duplicate fresh `task_key`s — the first call already
commits nothing, and the second fails identically.) -/
theorem upsert_tasks_idempotent (parse : DateutilParse) (db : List Task)
    (cid uid : String) (ts : List LLMTask) (raw model : String) (now : Int) :
    upsertCommitted parse
      (upsertCommitted parse db cid uid ts raw model now) cid uid ts raw model now =
      upsertCommitted parse db cid uid ts raw model now ∧
    ∀ db1 : List Task,
      upsert_tasks_commit parse db cid uid ts raw model now = .ok db1 →
      upsert_tasks_commit parse db1 cid uid ts raw model now = .ok db1 := by
  have hok : ∀ db1 : List Task,
      upsert_tasks_commit parse db cid uid ts raw model now = .ok db1 →
      upsert_tasks_commit parse db1 cid uid ts raw model now = .ok db1 := by
    intro db1 h
    unfold upsert_tasks_commit at h ⊢
    simp only [] at h ⊢
    split at h
    · next hnd =>
      cases h
      rw [upsert_tasks_fixpoint parse db cid uid ts raw model now hnd]
      rw [if_pos hnd]
    · exact Except.noConfusion h
  refine ⟨?_, hok⟩
  cases h : upsert_tasks_commit parse db cid uid ts raw model now with
  | ok db1 =>
    have hc1 : upsertCommitted parse db cid uid ts raw model now = db1 := by
      unfold upsertCommitted
      rw [h]
    rw [hc1]
    unfold upsertCommitted
    rw [hok db1 h]
  | error e =>
    have hc1 : upsertCommitted parse db cid uid ts raw model now = db := by
      unfold upsertCommitted
      rw [h]
    rw [hc1]
    exact hc1

/-- Two proposals with distinct fresh task keys: the commit succeeds. -/
def c2wTs : List LLMTask :=
  [{ task_key := "K1", title := "TA", category := "reply", priority := "high" },
   { task_key := "K2", title := "TB", category := "reply", priority := "low" }]

/-- Two proposals sharing one fresh task key: the two INSERTs violate
`uq_tasks_conversation_task_key` and the commit raises. -/
def c2cTs : List LLMTask :=
  [{ task_key := "K", title := "TA", category := "reply", priority := "high" },
   { task_key := "K", title := "TB", category := "reply", priority := "low" }]

/-- Witness for C2 at concrete inputs: a distinct-key batch commits and
recommitting its result returns it unchanged; a batch with a duplicated
fresh key makes every call raise `IntegrityError`, so the committed table
stays empty through both calls. -/
theorem upsert_tasks_idempotent_witness :
    upsert_tasks_commit (fun _ => .error .valueError)
      (upsertCommitted (fun _ => .error .valueError) [] "c1" "u1" c2wTs "r" "m" 0)
      "c1" "u1" c2wTs "r" "m" 0 =
      .ok (upsertCommitted (fun _ => .error .valueError) [] "c1" "u1" c2wTs "r" "m" 0) ∧
    upsertCommitted (fun _ => .error .valueError)
      (upsertCommitted (fun _ => .error .valueError) [] "c1" "u1" c2cTs "r" "m" 0)
      "c1" "u1" c2cTs "r" "m" 0 = [] := by
  constructor
  · exact (upsert_tasks_idempotent (fun _ => .error .valueError) [] "c1" "u1"
      c2wTs "r" "m" 0).2
      (upsertCommitted (fun _ => .error .valueError) [] "c1" "u1" c2wTs "r" "m" 0)
      rfl
  · exact ((upsert_tasks_idempotent (fun _ => .error .valueError) [] "c1" "u1"
      c2cTs "r" "m" 0).1).trans (by decide)

/-! ### The completion checker: short circuits and the line-77 crash
(claim C8) -/

/-- With the task's conversation absent from the conversation table, the
completion check returns at line 126 before reaching the raising
`check_task_resolved`: no crash, no refresh, no resolution, no commit. -/
theorem check_conv_none (env : Env) (msgs : List Message)
    (task : Task) (user : User) (now : Int)
    (h : env.conversations.find? (fun c => c.id = task.conversation_id) = none) :
    check_and_sync_completion env msgs task user now = .ok ⟨false, task, msgs, false⟩ := by
  unfold check_and_sync_completion
  rw [h]

/-- Any returning path of `check_and_sync_completion` is one of the two
pre-filter short circuits (line 126 or line 137) — the judge call raises
before it can answer — so the result is never `resolved` and carries the
task row unchanged. -/
theorem check_ok_shape (env : Env) (msgs : List Message)
    (task : Task) (user : User) (now : Int) (res : CheckResult)
    (h : check_and_sync_completion env msgs task user now = .ok res) :
    res.resolved = false ∧ res.task = task := by
  unfold check_and_sync_completion at h
  cases hconv : env.conversations.find? fun c => c.id = task.conversation_id with
  | none =>
    rw [hconv] at h
    cases h
    exact ⟨rfl, rfl⟩
  | some conversation =>
    rw [hconv] at h
    simp only [] at h
    split at h
    · cases h
      exact ⟨rfl, rfl⟩
    · exact Except.noConfusion h

/-- C8 (code bug): the spec requires `check_and_sync_completion` to catch
every connector and judge failure and degrade to `false` without raising,
but the code reads the undeclared `settings.ANTHROPIC_API_KEY`
(`completion_check.py`, line 77) outside every handler.
`check_task_resolved` therefore raises `AttributeError` on every
invocation, for every judge behaviour, and whenever the pre-filter passes
— the task's conversation exists and a user message newer than the task
is stored — `check_and_sync_completion` propagates the exception instead
of returning `false`. -/
theorem completion_check_raises (env : Env) (msgs : List Message)
    (task : Task) (user : User) (now : Int) (conversation : Conversation)
    (hconv : env.conversations.find? (fun c => c.id = task.conversation_id) =
      some conversation)
    (hnewer : ((_refresh_from_source env conversation user msgs).1.filter fun m =>
      m.conversation_id = conversation.id ∧ m.is_from_user = true ∧
        task.created_at < m.sent_at).isEmpty = false) :
    (∀ (conv : Conversation) (ms : List Message),
      check_task_resolved env task conv ms = .error "AttributeError") ∧
    ∃ cr : CheckRaised, check_and_sync_completion env msgs task user now = .error cr := by
  refine ⟨fun conv ms => rfl, ?_⟩
  unfold check_and_sync_completion
  rw [hconv]
  simp only []
  rw [if_neg (by rw [hnewer]; exact Bool.false_ne_true)]
  exact ⟨_, rfl⟩

/-- The conversation, the stored newer user reply, and the task of the C8
failing input. -/
def c8Conv : Conversation :=
  { id := "c1", user_id := "u1", source := "manual", source_id := "s1" }

def c8Msg : Message :=
  { conversation_id := "c1", user_id := "u1", source := "manual",
    source_id := "m1", is_from_user := true, sent_at := 100 }

def c8Task : Task :=
  { user_id := "u1", conversation_id := "c1", task_key := "k1",
    title := "T", category := "reply", priority := "low",
    summary := none, due_at := none, status := "pending",
    ignore_reason := none, llm_model := "m0", raw_llm_output := "r0",
    notify_at := [], notifications_sent := [], snoozed_until := none,
    created_at := 0, updated_at := 0 }

def c8Env : Env :=
  { users := [{ id := "u1", push_token := some "tok" }],
    conversations := [c8Conv],
    refresh := fun _ _ => .error .apiError,
    judge := fun _ _ => .error "api timeout",
    notify := fun _ _ _ => .ok (),
    fromiso := fun _ => .error "bad datetime" }

/-- Witness for the C8 code bug: with the conversation present and a user
reply newer than the task stored, the completion check raises even though
the judge oracle merely times out — the spec promised a `false` return. -/
theorem completion_check_raises_witness :
    check_task_resolved c8Env c8Task c8Conv [c8Msg] = .error "AttributeError" ∧
    ∃ cr : CheckRaised,
      check_and_sync_completion c8Env [c8Msg] c8Task
        { id := "u1", push_token := some "tok" } 5 = .error cr := by
  have h := completion_check_raises c8Env [c8Msg] c8Task
    { id := "u1", push_token := some "tok" } 5 c8Conv rfl (by decide)
  exact ⟨h.1 c8Conv [c8Msg], h.2⟩

/-! ### The generic Pass 2 state invariant

Any property of the session state that is closed under (a) replacing the
message table, (b) marking a task done via a positive completion check and
(c) reassigning a task's `notifications_sent` to the union of the old set
with instants drawn from its own `notify_at`, holds for the session and
every committed state throughout Pass 2 — including the state a
mid-pass exception rolls back to. -/

theorem fireDts_invariant (env : Env) (now : Int) (P : Session → Prop)
    (hmsg : ∀ (s : Session) (ms : List Message), P s → P { s with messages := ms })
    (i : Nat) (sent0 na0 : List String) :
    ∀ (dts newly : List String) (st : P2St),
      P st.session → P st.committed →
      (∀ t : Task, st.session.tasks[i]? = some t →
        (pySet t.notifications_sent) = sent0 ∧ t.notify_at = na0) →
      (∀ x ∈ dts, x ∈ na0) →
      (∀ x ∈ newly, x ∈ na0) →
      (match fireDts env now i sent0 dts newly st with
       | .error st2 => P st2.session ∧ P st2.committed
       | .ok (newly2, st2) =>
          P st2.session ∧ P st2.committed ∧
          (∀ t : Task, st2.session.tasks[i]? = some t →
            (pySet t.notifications_sent) = sent0 ∧ t.notify_at = na0) ∧
          (∀ x ∈ newly2, x ∈ na0)) := by
  intro dts
  induction dts with
  | nil =>
    intro newly st hs hc htask _ hnewly
    simp only [fireDts]
    exact ⟨hs, hc, htask, hnewly⟩
  | cons dt_str rest ih =>
    intro newly st hs hc htask hdts hnewly
    have hrest : ∀ x ∈ rest, x ∈ na0 := fun x hx => hdts x (List.mem_cons_of_mem _ hx)
    have hhead : dt_str ∈ na0 := hdts dt_str (List.mem_cons_self _ _)
    simp only [fireDts]
    by_cases hsent : sent0.contains dt_str
    · rw [if_pos hsent]
      exact ih newly st hs hc htask hrest hnewly
    · rw [if_neg hsent]
      cases hiso : env.fromiso (pyReplace dt_str) with
      | error e => exact ⟨hs, hc⟩
      | ok dt =>
        simp only []
        by_cases hlt : now < dt
        · rw [if_pos hlt]
          exact ih newly st hs hc htask hrest hnewly
        · rw [if_neg hlt]
          cases htsk : st.session.tasks[i]? with
          | none => exact ih newly st hs hc htask hrest hnewly
          | some t =>
            simp only []
            cases huser : env.users.find? fun u => u.id = t.user_id with
            | none => exact ih newly st hs hc htask hrest hnewly
            | some user =>
              simp only []
              cases hck : check_and_sync_completion env st.session.messages t user now with
              | error cr =>
                simp only []
                refine ⟨hmsg _ _ hs, ?_⟩
                split
                · exact hmsg _ _ hs
                · exact hc
              | ok res =>
                simp only []
                obtain ⟨hres, -⟩ := check_ok_shape env st.session.messages t user now res hck
                rw [if_neg (by rw [hres]; exact Bool.false_ne_true)]
                have hsessA : P { st.session with messages := res.messages } := hmsg _ _ hs
                have hcommA : P (if res.committed then
                    { st.session with messages := res.messages }
                  else st.committed) := by
                  split
                  · exact hsessA
                  · exact hc
                cases hnot : env.notify user t
                    (match t.due_at with
                     | some due => some (max 0 ((due - now).fdiv 60))
                     | none => none) with
                | ok u =>
                  refine ih (newly ++ [dt_str]) _ hsessA hcommA ?_ hrest ?_
                  · intro t2 ht2
                    exact htask t2 (by simpa using ht2)
                  · intro x hx
                    rcases List.mem_append.mp hx with hx | hx
                    · exact hnewly x hx
                    · rw [List.mem_singleton.mp hx]
                      exact hhead
                | error e =>
                  refine ih newly _ hsessA hcommA ?_ hrest hnewly
                  intro t2 ht2
                  exact htask t2 (by simpa using ht2)

theorem fireTask_invariant (env : Env) (now : Int) (P : Session → Prop)
    (hmsg : ∀ (s : Session) (ms : List Message), P s → P { s with messages := ms })
    (hsent : ∀ (s : Session) (i : Nat) (t : Task) (sent newly : List String),
      P s → s.tasks[i]? = some t → sent = (pySet t.notifications_sent) →
      (∀ x ∈ newly, x ∈ t.notify_at) →
      P { s with tasks := s.tasks.set i ({ t with
        notifications_sent := sent ++ newly, updated_at := now }) })
    (st : P2St) (i : Nat) (hs : P st.session) (hc : P st.committed) :
    (match fireTask env now st i with
     | .error st2 => P st2.session ∧ P st2.committed
     | .ok st2 => P st2.session ∧ P st2.committed) := by
  unfold fireTask
  cases htsk : st.session.tasks[i]? with
  | none => exact ⟨hs, hc⟩
  | some t =>
    simp only []
    by_cases hemp : t.notify_at.isEmpty
    · rw [if_pos hemp]
      exact ⟨hs, hc⟩
    · rw [if_neg hemp]
      have hfd := fireDts_invariant env now P hmsg i
        (pySet t.notifications_sent) t.notify_at t.notify_at [] st hs hc
        (fun t2 ht2 => by rw [htsk] at ht2; cases ht2; exact ⟨rfl, rfl⟩)
        (fun x hx => hx) (fun x hx => absurd hx (List.not_mem_nil x))
      cases hres : fireDts env now i (pySet t.notifications_sent) t.notify_at [] st with
      | error st2 =>
        rw [hres] at hfd
        exact hfd
      | ok pair =>
        obtain ⟨newly2, st2⟩ := pair
        rw [hres] at hfd
        obtain ⟨hs2, hc2, htask2, hnew2⟩ := hfd
        simp only []
        by_cases hne : newly2.isEmpty
        · rw [if_pos hne]
          exact ⟨hs2, hc2⟩
        · rw [if_neg hne]
          cases htsk2 : st2.session.tasks[i]? with
          | none => exact ⟨hs2, hc2⟩
          | some t2 =>
            simp only []
            obtain ⟨hsent2, hna2⟩ := htask2 t2 htsk2
            refine ⟨?_, hc2⟩
            exact hsent st2.session i t2 (pySet t.notifications_sent) newly2
              hs2 htsk2 hsent2.symm (fun x hx => hna2 ▸ hnew2 x hx)

theorem pass2Go_invariant (env : Env) (now : Int) (P : Session → Prop)
    (hmsg : ∀ (s : Session) (ms : List Message), P s → P { s with messages := ms })
    (hsent : ∀ (s : Session) (i : Nat) (t : Task) (sent newly : List String),
      P s → s.tasks[i]? = some t → sent = (pySet t.notifications_sent) →
      (∀ x ∈ newly, x ∈ t.notify_at) →
      P { s with tasks := s.tasks.set i ({ t with
        notifications_sent := sent ++ newly, updated_at := now }) }) :
    ∀ (idxs : List Nat) (st : P2St), P st.session → P st.committed →
      (match pass2Go env now idxs st with
       | .error st2 => P st2.session ∧ P st2.committed
       | .ok st2 => P st2.session ∧ P st2.committed) := by
  intro idxs
  induction idxs with
  | nil =>
    intro st hs hc
    exact ⟨hs, hc⟩
  | cons i rest ih =>
    intro st hs hc
    have hft := fireTask_invariant env now P hmsg hsent st i hs hc
    simp only [pass2Go]
    cases hres : fireTask env now st i with
    | error st2 =>
      rw [hres] at hft
      exact hft
    | ok st1 =>
      rw [hres] at hft
      exact ih st1 hft.1 hft.2

/-- The full-sweep state invariant: a session property closed under the
three Pass 2 mutation shapes and under the Pass 1 / Pass 3 row maps holds
of the committed state the sweep leaves behind — whether it finishes or
aborts mid-Pass 2. -/
theorem process_invariant (env : Env) (db : Session) (now : Int) (P : Session → Prop)
    (hmsg : ∀ (s : Session) (ms : List Message), P s → P { s with messages := ms })
    (hsent : ∀ (s : Session) (i : Nat) (t : Task) (sent newly : List String),
      P s → s.tasks[i]? = some t → sent = (pySet t.notifications_sent) →
      (∀ x ∈ newly, x ∈ t.notify_at) →
      P { s with tasks := s.tasks.set i ({ t with
        notifications_sent := sent ++ newly, updated_at := now }) })
    (hpass1 : ∀ s : Session, P s → P { s with tasks := s.tasks.map (pass1Update now) })
    (hpass3 : ∀ s : Session, P s → P { s with tasks := s.tasks.map (pass3Update now) })
    (hP : P db) :
    P (process_task_deadlines env db now).committed := by
  unfold process_task_deadlines
  simp only []
  have hs1 : P { db with tasks := db.tasks.map (pass1Update now) } := hpass1 db hP
  have hc1 : P (if db.tasks.any (snoozeExpired now) then
      { db with tasks := db.tasks.map (pass1Update now) } else db) := by
    split
    · exact hs1
    · exact hP
  have hgo := pass2Go_invariant env now P hmsg hsent
    ((List.range (db.tasks.map (pass1Update now)).length).filter fun i =>
      match (db.tasks.map (pass1Update now))[i]? with
      | some t => t.status = "pending"
      | none => false)
    ⟨(if db.tasks.any (snoozeExpired now) then
        { db with tasks := db.tasks.map (pass1Update now) } else db),
      { db with tasks := db.tasks.map (pass1Update now) }, [], false⟩
    hs1 hc1
  cases hres : pass2Go env now
      ((List.range (db.tasks.map (pass1Update now)).length).filter fun i =>
        match (db.tasks.map (pass1Update now))[i]? with
        | some t => t.status = "pending"
        | none => false)
      ⟨(if db.tasks.any (snoozeExpired now) then
          { db with tasks := db.tasks.map (pass1Update now) } else db),
        { db with tasks := db.tasks.map (pass1Update now) }, [], false⟩ with
  | error st2 =>
    rw [hres] at hgo
    exact hgo.2
  | ok st2 =>
    rw [hres] at hgo
    simp only []
    split
    · exact hpass3 st2.session hgo.1
    · split
      · exact hgo.1
      · exact hgo.2

/-! ### No-abort lemmas: with a totally parsing `fromisoformat` oracle
and a completion check that always returns (its pre-filter always
short-circuits), the sweep never raises. -/

theorem fireDts_isOk (env : Env) (now : Int)
    (hfi : ∀ s : String, (env.fromiso s).isOk = true)
    (hck : ∀ (ms : List Message) (t : Task) (u : User),
      ∃ r, check_and_sync_completion env ms t u now = .ok r)
    (i : Nat) (sent : List String) :
    ∀ (dts newly : List String) (st : P2St),
      ∃ r, fireDts env now i sent dts newly st = .ok r := by
  intro dts
  induction dts with
  | nil => intro newly st; exact ⟨(newly, st), rfl⟩
  | cons dt_str rest ih =>
    intro newly st
    simp only [fireDts]
    by_cases hsent : sent.contains dt_str
    · rw [if_pos hsent]
      exact ih newly st
    · rw [if_neg hsent]
      cases hiso : env.fromiso (pyReplace dt_str) with
      | error e =>
        have := hfi (pyReplace dt_str)
        rw [hiso] at this
        exact absurd this (by simp [Except.isOk, Except.toBool])
      | ok dt =>
        simp only []
        by_cases hlt : now < dt
        · rw [if_pos hlt]
          exact ih newly st
        · rw [if_neg hlt]
          cases htsk : st.session.tasks[i]? with
          | none => exact ih newly st
          | some t =>
            simp only []
            cases huser : env.users.find? fun u => u.id = t.user_id with
            | none => exact ih newly st
            | some user =>
              simp only []
              obtain ⟨res, hres⟩ := hck st.session.messages t user
              rw [hres]
              simp only []
              obtain ⟨hresf, -⟩ := check_ok_shape env st.session.messages t user now res hres
              rw [if_neg (by rw [hresf]; exact Bool.false_ne_true)]
              cases hnot : env.notify user t
                  (match t.due_at with
                   | some due => some (max 0 ((due - now).fdiv 60))
                   | none => none) with
              | ok u => exact ih _ _
              | error e => exact ih _ _

theorem fireTask_isOk (env : Env) (now : Int)
    (hfi : ∀ s : String, (env.fromiso s).isOk = true)
    (hck : ∀ (ms : List Message) (t : Task) (u : User),
      ∃ r, check_and_sync_completion env ms t u now = .ok r)
    (st : P2St) (i : Nat) :
    ∃ st2, fireTask env now st i = .ok st2 := by
  unfold fireTask
  cases htsk : st.session.tasks[i]? with
  | none => exact ⟨st, rfl⟩
  | some t =>
    simp only []
    by_cases hemp : t.notify_at.isEmpty
    · rw [if_pos hemp]
      exact ⟨st, rfl⟩
    · rw [if_neg hemp]
      obtain ⟨⟨newly2, st1⟩, hr⟩ := fireDts_isOk env now hfi hck i
        (pySet t.notifications_sent) t.notify_at [] st
      rw [hr]
      simp only []
      by_cases hne : newly2.isEmpty
      · rw [if_pos hne]
        exact ⟨st1, rfl⟩
      · rw [if_neg hne]
        cases htsk2 : st1.session.tasks[i]? with
        | none => exact ⟨st1, rfl⟩
        | some t2 => exact ⟨_, rfl⟩

theorem pass2Go_isOk (env : Env) (now : Int)
    (hfi : ∀ s : String, (env.fromiso s).isOk = true)
    (hck : ∀ (ms : List Message) (t : Task) (u : User),
      ∃ r, check_and_sync_completion env ms t u now = .ok r) :
    ∀ (idxs : List Nat) (st : P2St), ∃ st2, pass2Go env now idxs st = .ok st2 := by
  intro idxs
  induction idxs with
  | nil => intro st; exact ⟨st, rfl⟩
  | cons i rest ih =>
    intro st
    simp only [pass2Go]
    obtain ⟨st1, h1⟩ := fireTask_isOk env now hfi hck st i
    rw [h1]
    exact ih st1

theorem process_not_aborted (env : Env) (db : Session) (now : Int)
    (hfi : ∀ s : String, (env.fromiso s).isOk = true)
    (hck : ∀ (ms : List Message) (t : Task) (u : User),
      ∃ r, check_and_sync_completion env ms t u now = .ok r) :
    (process_task_deadlines env db now).aborted = false := by
  unfold process_task_deadlines
  simp only []
  obtain ⟨st2, h2⟩ := pass2Go_isOk env now hfi hck
    ((List.range (db.tasks.map (pass1Update now)).length).filter fun i =>
      match (db.tasks.map (pass1Update now))[i]? with
      | some t => t.status = "pending"
      | none => false)
    ⟨(if db.tasks.any (snoozeExpired now) then
        { db with tasks := db.tasks.map (pass1Update now) } else db),
      { db with tasks := db.tasks.map (pass1Update now) }, [], false⟩
  rw [h2]

/-! ### Claim C6: Pass 1 composes with Pass 3 within one sweep -/

/-- C6 (amended): a task that is snoozed with an expired snooze and an
already-past due date ends a single sweep invocation with status
`expired` and a null `snoozed_until`, provided the sweep does not abort:
every stored notify string parses (`fromiso` total) and the Pass-2
completion check stays on its conversation-absent short circuit — it
would otherwise raise `AttributeError` at `completion_check.py`, line 77,
and cut the run short before Pass 3. -/
theorem sweep_unsnooze_then_expire (env : Env) (db : Session) (now : Int)
    (j : Nat) (t0 : Task) (u d : Int)
    (hget : db.tasks[j]? = some t0)
    (hsn : t0.status = "snoozed")
    (hsu : t0.snoozed_until = some u) (huu : u ≤ now)
    (hdue : t0.due_at = some d) (hd : d < now)
    (hfi : ∀ s : String, (env.fromiso s).isOk = true)
    (hconv : ∀ cid : String, env.conversations.find? (fun c => c.id = cid) = none) :
    (process_task_deadlines env db now).aborted = false ∧
    ∃ t2 : Task, (process_task_deadlines env db now).committed.tasks[j]? = some t2 ∧
      t2.status = "expired" ∧ t2.snoozed_until = none := by
  have hck : ∀ (ms : List Message) (t : Task) (u2 : User),
      ∃ r, check_and_sync_completion env ms t u2 now = .ok r :=
    fun ms t u2 => ⟨_, check_conv_none env ms t u2 now (hconv t.conversation_id)⟩
  refine ⟨process_not_aborted env db now hfi hck, ?_⟩
  unfold process_task_deadlines
  simp only []
  have hsnz : snoozeExpired now t0 = true := by
    unfold snoozeExpired
    rw [hsu]
    simp [hsn, huu]
  have hs1 : ∃ ns : List String, ∃ ua : Int,
      ({ db with tasks := db.tasks.map (pass1Update now) } : Session).tasks[j]? =
      some { t0 with
        status := "pending", snoozed_until := none,
        notifications_sent := ns, updated_at := ua } := by
    refine ⟨t0.notifications_sent, now, ?_⟩
    show (db.tasks.map (pass1Update now))[j]? = _
    rw [List.getElem?_map, hget]
    show some (pass1Update now t0) = _
    unfold pass1Update
    rw [if_pos hsnz]
  have hc1 : ∃ ns : List String, ∃ ua : Int,
      (if db.tasks.any (snoozeExpired now) then
        ({ db with tasks := db.tasks.map (pass1Update now) } : Session)
      else db).tasks[j]? =
      some { t0 with
        status := "pending", snoozed_until := none,
        notifications_sent := ns, updated_at := ua } := by
    rw [if_pos (List.any_eq_true.mpr ⟨t0, List.getElem?_mem hget, hsnz⟩)]
    exact hs1
  have hgo := pass2Go_invariant env now
    (fun s => ∃ ns : List String, ∃ ua : Int, s.tasks[j]? =
      some { t0 with
        status := "pending", snoozed_until := none,
        notifications_sent := ns, updated_at := ua })
    (fun s ms hp => hp)
    (fun s i t sent newly hp htk hse hnw => by
      obtain ⟨ns, ua, hj⟩ := hp
      by_cases hij : i = j
      · subst hij
        rw [hj] at htk
        cases htk
        refine ⟨sent ++ newly, now, ?_⟩
        rw [List.getElem?_set_self (List.getElem?_eq_some.mp hj).1]
      · exact ⟨ns, ua, by
          show (s.tasks.set i _)[j]? = _
          rw [List.getElem?_set_ne hij]
          exact hj⟩)
    ((List.range (db.tasks.map (pass1Update now)).length).filter fun i =>
      match (db.tasks.map (pass1Update now))[i]? with
      | some t => t.status = "pending"
      | none => false)
    ⟨(if db.tasks.any (snoozeExpired now) then
        { db with tasks := db.tasks.map (pass1Update now) } else db),
      { db with tasks := db.tasks.map (pass1Update now) }, [], false⟩
    hs1 hc1
  obtain ⟨stOK, hOK⟩ := pass2Go_isOk env now hfi hck
    ((List.range (db.tasks.map (pass1Update now)).length).filter fun i =>
      match (db.tasks.map (pass1Update now))[i]? with
      | some t => t.status = "pending"
      | none => false)
    ⟨(if db.tasks.any (snoozeExpired now) then
        { db with tasks := db.tasks.map (pass1Update now) } else db),
      { db with tasks := db.tasks.map (pass1Update now) }, [], false⟩
  rw [hOK] at hgo ⊢
  simp only []
  obtain ⟨ns, ua, htj⟩ := hgo.1
  have hovtj : overdue now { t0 with
      status := "pending", snoozed_until := none,
      notifications_sent := ns, updated_at := ua } = true := by
    unfold overdue
    simp only [show ({ t0 with
      status := "pending", snoozed_until := none,
      notifications_sent := ns, updated_at := ua } : Task).due_at = t0.due_at from rfl, hdue]
    simp [hd]
  have hov : stOK.session.tasks.any (overdue now) = true :=
    List.any_eq_true.mpr ⟨_, List.getElem?_mem htj, hovtj⟩
  rw [if_pos hov]
  refine ⟨pass3Update now { t0 with
      status := "pending", snoozed_until := none,
      notifications_sent := ns, updated_at := ua }, ?_, ?_, ?_⟩
  · show (stOK.session.tasks.map (pass3Update now))[j]? = _
    rw [List.getElem?_map, htj]
    rfl
  · unfold pass3Update
    rw [if_pos hovtj]
  · unfold pass3Update
    rw [if_pos hovtj]

/-- A snoozed task whose snooze and due date are both in the past
(relative to `now = 0`), used for the C6 witness. -/
def c6wTask : Task :=
  { user_id := "u1", conversation_id := "c1", task_key := "k1",
    title := "T", category := "reply", priority := "low",
    summary := none, due_at := some (-100), status := "snoozed",
    ignore_reason := none, llm_model := "m", raw_llm_output := "r",
    notify_at := [], notifications_sent := [], snoozed_until := some (-10),
    created_at := -1000, updated_at := -1000 }

/-- An environment whose datetime parser always succeeds and whose judge
always raises, used for the C6 witness. -/
def c6wEnv : Env :=
  { users := [], conversations := [],
    refresh := fun _ _ => .error .apiError,
    judge := fun _ _ => .error "judge down",
    notify := fun _ _ _ => .ok (),
    fromiso := fun _ => .ok 1 }

/-- Witness for the amended C6 at a concrete snoozed overdue task. -/
theorem sweep_unsnooze_then_expire_witness :
    (process_task_deadlines c6wEnv { tasks := [c6wTask], messages := [] } 0).aborted =
      false ∧
    ((process_task_deadlines c6wEnv { tasks := [c6wTask], messages := [] }
      0).committed.tasks[0]?.map Task.status) = some "expired" ∧
    ((process_task_deadlines c6wEnv { tasks := [c6wTask], messages := [] }
      0).committed.tasks[0]?.map Task.snoozed_until) = some none := by
  have h := sweep_unsnooze_then_expire c6wEnv { tasks := [c6wTask], messages := [] } 0
    0 c6wTask (-10) (-100) rfl rfl rfl (by decide) rfl (by decide)
    (fun s => rfl) (fun cid => rfl)
  obtain ⟨t2, hget2, hst, hsz⟩ := h.2
  refine ⟨h.1, ?_, ?_⟩
  · rw [hget2]
    simp [hst]
  · rw [hget2]
    simp [hsz]

/-- The task of the C6 counterexample: snoozed with expired snooze and a
past due date; its single due notify instant makes Pass 2 reach the
completion check. -/
def c6cTask : Task :=
  { user_id := "u1", conversation_id := "c1", task_key := "k1",
    title := "T", category := "reply", priority := "low",
    summary := none, due_at := some (-7200), status := "snoozed",
    ignore_reason := none, llm_model := "m", raw_llm_output := "r",
    notify_at := ["n1"], notifications_sent := [], snoozed_until := some (-3600),
    created_at := -10000, updated_at := -10000 }

/-- The environment of the C6 counterexample: the task's conversation
exists (non-Gmail, so the refresh is a no-op), every notify string parses
to a past instant. -/
def c6cEnv : Env :=
  { users := [{ id := "u1", push_token := some "tok" }],
    conversations := [{ id := "c1", user_id := "u1", source := "manual", source_id := "s1" }],
    refresh := fun _ _ => .error .apiError,
    judge := fun _ _ => .error "never consulted",
    notify := fun _ _ _ => .ok (),
    fromiso := fun _ => .ok (-5000) }

/-- A stored user reply newer than the task, so the completion check's
pre-filter does not short-circuit and line 77 is reached. -/
def c6cMsg : Message :=
  { conversation_id := "c1", user_id := "u1", source := "manual",
    source_id := "m1", is_from_user := true, sent_at := -5 }

/-- C6 counterexample: a task with `status = snoozed`, `snoozed_until` and
`due_at` both in the past is left `pending` — not `expired` — by a sweep
invocation: Pass 1 un-snoozes and commits it, then Pass 2's completion
check (conversation present, newer user reply stored) raises the line-77
`AttributeError`, aborting the run before Pass 3 can expire the task. -/
theorem sweep_unsnooze_then_expire_counterexample :
    c6cTask.status = "snoozed" ∧
    c6cTask.snoozed_until = some (-3600) ∧
    c6cTask.due_at = some (-7200) ∧
    (process_task_deadlines c6cEnv { tasks := [c6cTask], messages := [c6cMsg] }
      0).aborted = true ∧
    (process_task_deadlines c6cEnv { tasks := [c6cTask], messages := [c6cMsg] }
      0).committed.tasks.map Task.status = ["pending"] :=
  ⟨rfl, rfl, rfl, by decide, by decide⟩

/-! ### Claim C1: the notifications_sent ⊆ notify_at invariant -/

theorem pySet_mem_aux (x : String) : ∀ (l acc : List String),
    (x ∈ l.foldl (fun acc y => if acc.contains y then acc else acc ++ [y]) acc) ↔
      x ∈ acc ∨ x ∈ l := by
  intro l
  induction l with
  | nil => intro acc; simp
  | cons y rest ih =>
    intro acc
    simp only [List.foldl_cons]
    by_cases hy : acc.contains y
    · rw [if_pos hy, ih acc]
      have hymem : y ∈ acc := by simpa using hy
      constructor
      · rintro (h | h)
        · exact Or.inl h
        · exact Or.inr (List.mem_cons_of_mem _ h)
      · rintro (h | h)
        · exact Or.inl h
        · rcases List.mem_cons.mp h with rfl | h
          · exact Or.inl hymem
          · exact Or.inr h
    · rw [if_neg hy, ih (acc ++ [y])]
      simp [List.mem_append, List.mem_cons, or_assoc]

theorem pySet_mem (x : String) (l : List String) : x ∈ pySet l ↔ x ∈ l := by
  unfold pySet
  rw [pySet_mem_aux]
  simp

theorem c1_upsert_fold (parse : DateutilParse) (db0 : List Task)
    (cid uid raw model : String) (now : Int) :
    ∀ (rest : List LLMTask) (dbA : List Task),
      (∀ p ∈ rest, ∀ (i : Nat) (t : Task), lookupLast db0 cid p.task_key = some i →
        db0[i]? = some t → ∀ x ∈ t.notifications_sent, x ∈ p.notify_at) →
      FrameAll db0 dbA →
      (∀ t ∈ dbA, ∀ x ∈ t.notifications_sent, x ∈ t.notify_at) →
      ∀ t ∈ rest.foldl (upsertStep parse db0 cid uid raw model now) dbA,
        ∀ x ∈ t.notifications_sent, x ∈ t.notify_at := by
  intro rest
  induction rest with
  | nil => intro dbA _ _ hsub; exact hsub
  | cons q rest ih =>
    intro dbA hprov hframe hsub
    simp only [List.foldl_cons]
    refine ih _ (fun p hp => hprov p (List.mem_cons_of_mem _ hp))
      (frameAll_upsertStep parse db0 dbA cid uid raw model now q hframe) ?_
    unfold upsertStep
    cases hlook : lookupLast db0 cid q.task_key with
    | none =>
      simp only []
      intro t ht
      rcases List.mem_append.mp ht with h | h
      · exact hsub t h
      · rw [List.mem_singleton.mp h]
        intro x hx
        exact absurd hx (List.not_mem_nil x)
    | some j2 =>
      simp only []
      cases hex : dbA[j2]? with
      | none => exact hsub
      | some existing =>
        simp only []
        have hexmem : existing ∈ dbA := List.getElem?_mem hex
        by_cases hig : existing.status = "ignored"
        · rw [if_pos hig]; exact hsub
        · rw [if_neg hig]
          by_cases hds : existing.status = "done" ∨ existing.status = "snoozed"
          · rw [if_pos hds]
            intro t ht
            rcases List.mem_or_eq_of_mem_set ht with h | h
            · exact hsub t h
            · subst h
              intro x hx
              exact hsub existing hexmem x hx
          · rw [if_neg hds]
            intro t ht
            rcases List.mem_or_eq_of_mem_set ht with h | h
            · exact hsub t h
            · subst h
              intro x hx
              obtain ⟨hj2lt, _⟩ := lookupLast_some_spec db0 cid q.task_key j2 hlook
              obtain ⟨t0, ht0⟩ : ∃ a, db0[j2]? = some a :=
                ⟨_, List.getElem?_eq_getElem hj2lt⟩
              have hsent0 : existing.notifications_sent = t0.notifications_sent :=
                (hframe.2 j2 t0 existing ht0 hex).2.2.2.2.2.2.2.1
              have := hprov q (List.mem_cons_self q rest) j2 t0 hlook ht0 x
                (hsent0 ▸ hx)
              exact this

/-- C1 (amended): the invariant that every instant in `notifications_sent`
is string-equal to an instant in `notify_at` is preserved by every
`process_task_deadlines` invocation (committed state, whether the sweep
finishes or aborts), and by every `upsert_tasks` call in which each
proposal's `notify_at` still contains the already-sent instants of the row
it matches (in particular by every insert, whose `notifications_sent`
starts empty).  The unconditional claim is false: a pending-row update
replaces `notify_at` wholesale without clearing `notifications_sent` —
see the counterexample. -/
theorem notifications_sent_subset_invariant :
    (∀ (env : Env) (db : Session) (now : Int),
      (∀ t ∈ db.tasks, ∀ x ∈ t.notifications_sent, x ∈ t.notify_at) →
      ∀ t ∈ (process_task_deadlines env db now).committed.tasks,
        ∀ x ∈ t.notifications_sent, x ∈ t.notify_at) ∧
    (∀ (parse : DateutilParse) (db : List Task) (cid uid : String)
      (ts : List LLMTask) (raw model : String) (now : Int),
      (∀ t ∈ db, ∀ x ∈ t.notifications_sent, x ∈ t.notify_at) →
      (∀ p ∈ ts, ∀ (i : Nat) (t : Task), lookupLast db cid p.task_key = some i →
        db[i]? = some t → ∀ x ∈ t.notifications_sent, x ∈ p.notify_at) →
      ∀ t ∈ upsert_tasks parse db cid uid ts raw model now,
        ∀ x ∈ t.notifications_sent, x ∈ t.notify_at) := by
  constructor
  · intro env db now hsub
    refine process_invariant env db now
      (fun s => ∀ t ∈ s.tasks, ∀ x ∈ t.notifications_sent, x ∈ t.notify_at)
      (fun s ms hp => hp)
      (fun s i t sent newly hp htk hse hnw => by
        intro t2 ht2 x hx
        rcases List.mem_or_eq_of_mem_set ht2 with h | h
        · exact hp t2 h x hx
        · subst h
          rcases List.mem_append.mp hx with h2 | h2
          · exact hp t (List.getElem?_mem htk) x ((pySet_mem x _).mp (hse ▸ h2))
          · exact hnw x h2)
      (fun s hp => by
        intro t2 ht2 x hx
        obtain ⟨t0, ht0, rfl⟩ := List.mem_map.mp ht2
        unfold pass1Update at hx ⊢
        by_cases hc : snoozeExpired now t0
        · rw [if_pos hc] at hx ⊢
          exact hp t0 ht0 x hx
        · rw [if_neg hc] at hx ⊢
          exact hp t0 ht0 x hx)
      (fun s hp => by
        intro t2 ht2 x hx
        obtain ⟨t0, ht0, rfl⟩ := List.mem_map.mp ht2
        unfold pass3Update at hx ⊢
        by_cases hc : overdue now t0
        · rw [if_pos hc] at hx ⊢
          exact hp t0 ht0 x hx
        · rw [if_neg hc] at hx ⊢
          exact hp t0 ht0 x hx)
      hsub
  · intro parse db cid uid ts raw model now hsub hprov
    exact c1_upsert_fold parse db cid uid raw model now ts db hprov
      (FrameAll.rfl_all db) hsub

/-- Witness for the amended C1: one sweep on a one-task store that
satisfies the invariant, and one insert-only reconciliation call. -/
theorem notifications_sent_subset_invariant_witness :
    (∀ t ∈ (process_task_deadlines c6wEnv { tasks := [c6wTask], messages := [] }
        0).committed.tasks, ∀ x ∈ t.notifications_sent, x ∈ t.notify_at) ∧
    (∀ t ∈ upsert_tasks (fun _ => .error .valueError) [] "c1" "u1"
        [{ task_key := "K", title := "T", category := "reply", priority := "low",
           notify_at := ["a"] }] "r" "m" 0,
      ∀ x ∈ t.notifications_sent, x ∈ t.notify_at) :=
  ⟨notifications_sent_subset_invariant.1 c6wEnv { tasks := [c6wTask], messages := [] } 0
    (by decide),
   notifications_sent_subset_invariant.2 (fun _ => .error .valueError) [] "c1" "u1"
    [{ task_key := "K", title := "T", category := "reply", priority := "low",
       notify_at := ["a"] }] "r" "m" 0
    (by decide)
    (fun p hp i t hlook hget => by
      rw [show lookupLast [] "c1" p.task_key = none from rfl] at hlook
      cases hlook)⟩

/-- The environment of the C1 counterexample: a user exists, the
conversation table is empty (so the completion check short-circuits to
false), notifications dispatch successfully and every notify string
parses to instant 5. -/
def c1cEnv : Env :=
  { users := [{ id := "u1", push_token := some "tok" }],
    conversations := [],
    refresh := fun _ _ => .error .apiError,
    judge := fun _ _ => .error "unused",
    notify := fun _ _ _ => .ok (),
    fromiso := fun _ => .ok 5 }

/-- C1 counterexample: insert a task with `notify_at = ["a"]`, let one
sweep fire and record instant "a", then reconcile the same (pending) task
with `notify_at = ["b"]`.  The update replaces `notify_at` but keeps
`notifications_sent = ["a"]`, so `notifications_sent ⊆ notify_at` is
violated after this upsert–sweep–upsert sequence. -/
theorem notifications_sent_subset_counterexample :
    (upsert_tasks (fun _ => .error .valueError)
      (process_task_deadlines c1cEnv
        { tasks := upsert_tasks (fun _ => .error .valueError) [] "c1" "u1"
            [{ task_key := "K", title := "T", category := "reply",
               priority := "low", notify_at := ["a"] }] "r" "m" 0,
          messages := [] } 10).committed.tasks
      "c1" "u1"
      [{ task_key := "K", title := "T", category := "reply",
         priority := "low", notify_at := ["b"] }]
      "r" "m" 20).all
      (fun t => t.notifications_sent.all fun x => t.notify_at.contains x) = false := by
  decide

/-! ### Claim C7: exactly-once firing of notify_at instants -/

/-- Whether Pass 2 fires the instant string `s` for a task whose sent-set
is `sent`: not yet sent, parseable, and not in the future. -/
def firesB (env : Env) (now : Int) (sent : List String) (s : String) : Bool :=
  !sent.contains s &&
    match env.fromiso (pyReplace s) with
    | .ok v => decide (v ≤ now)
    | .error _ => false

theorem count_map_triple (c k dt : String) :
    ∀ l : List String,
      ((l.map fun s => (c, k, s)).count (c, k, dt)) = l.count dt := by
  intro l
  induction l with
  | nil => rfl
  | cons s rest ih =>
    simp only [List.map_cons, List.count_cons, ih]
    congr 1
    by_cases h : s = dt
    · subst h; simp
    · simp [h, Prod.ext_iff]

theorem fireDts_clean (env : Env) (now : Int)
    (hck : ∀ (ms : List Message) (t2 : Task) (u2 : User),
      ∃ r, check_and_sync_completion env ms t2 u2 now = .ok r)
    (hnok : ∀ (u : User) (t : Task) (m : Option Int), env.notify u t m = .ok ())
    (i : Nat) (t : Task) (user : User) (sent : List String) :
    ∀ (dts newly : List String) (st : P2St),
      st.session.tasks[i]? = some t →
      env.users.find? (fun u => u.id = t.user_id) = some user →
      (∀ s ∈ dts, (env.fromiso (pyReplace s)).isOk = true) →
      ∃ st2, fireDts env now i sent dts newly st =
          .ok (newly ++ dts.filter (firesB env now sent), st2) ∧
        st2.session.tasks = st.session.tasks ∧
        st2.log = st.log ++ (dts.filter (firesB env now sent)).map
          (fun s => (t.conversation_id, t.task_key, s)) ∧
        st2.fired = st.fired := by
  intro dts
  induction dts with
  | nil =>
    intro newly st htask huser _
    exact ⟨st, by simp [fireDts], rfl, by simp, rfl⟩
  | cons s rest ih =>
    intro newly st htask huser hok
    have hokrest : ∀ x ∈ rest, (env.fromiso (pyReplace x)).isOk = true :=
      fun x hx => hok x (List.mem_cons_of_mem _ hx)
    simp only [fireDts]
    by_cases hct : sent.contains s
    · rw [if_pos hct]
      have hfb : firesB env now sent s = false := by
        unfold firesB
        rw [hct]
        rfl
      obtain ⟨st2, h1, h2, h3, h4⟩ := ih newly st htask huser hokrest
      refine ⟨st2, ?_, h2, ?_, h4⟩
      · rw [h1, List.filter_cons, hfb]
        simp
      · rw [h3, List.filter_cons, hfb]
        simp
    · rw [if_neg hct]
      cases hiso : env.fromiso (pyReplace s) with
      | error e =>
        have := hok s (List.mem_cons_self _ _)
        rw [hiso] at this
        exact absurd this (by simp [Except.isOk, Except.toBool])
      | ok v =>
        simp only []
        by_cases hlt : now < v
        · rw [if_pos hlt]
          have hfb : firesB env now sent s = false := by
            unfold firesB
            rw [hiso]
            simp [not_le.mpr hlt]
          obtain ⟨st2, h1, h2, h3, h4⟩ := ih newly st htask huser hokrest
          refine ⟨st2, ?_, h2, ?_, h4⟩
          · rw [h1, List.filter_cons, hfb]
            simp
          · rw [h3, List.filter_cons, hfb]
            simp
        · rw [if_neg hlt]
          have hfb : firesB env now sent s = true := by
            unfold firesB
            rw [hiso, Bool.eq_false_iff.mpr hct]
            simp [not_lt.mp hlt]
          rw [htask]
          simp only [huser]
          obtain ⟨res, hckr⟩ := hck st.session.messages t user
          rw [hckr]
          simp only []
          obtain ⟨hresf, -⟩ := check_ok_shape env st.session.messages t user now res hckr
          rw [if_neg (by rw [hresf]; exact Bool.false_ne_true)]
          rw [hnok user t _]
          simp only []
          obtain ⟨st2, h1, h2, h3, h4⟩ := ih (newly ++ [s])
            { st with
              session := { st.session with messages := res.messages },
              committed := if res.committed then
                { st.session with messages := res.messages }
                else st.committed,
              log := st.log ++ [(t.conversation_id, t.task_key, s)] }
            (by simpa using htask) huser hokrest
          refine ⟨st2, ?_, by rw [h2], ?_, h4⟩
          · rw [h1, List.filter_cons, hfb]
            simp
          · rw [h3, List.filter_cons, hfb]
            simp

theorem fireDts_shape (env : Env) (now : Int)
    (hck : ∀ (ms : List Message) (t2 : Task) (u2 : User),
      ∃ r, check_and_sync_completion env ms t2 u2 now = .ok r)
    (hfi : ∀ s : String, (env.fromiso s).isOk = true)
    (i : Nat) (sent : List String) :
    ∀ (dts newly : List String) (st : P2St) (t : Task),
      st.session.tasks[i]? = some t →
      ∃ newly2 st2, fireDts env now i sent dts newly st = .ok (newly2, st2) ∧
        st2.session.tasks = st.session.tasks ∧
        st2.fired = st.fired ∧
        ∃ entries, st2.log = st.log ++ entries ∧
          ∀ e ∈ entries, e.1 = t.conversation_id ∧ e.2.1 = t.task_key ∧
            e.2.2 ∉ sent := by
  intro dts
  induction dts with
  | nil =>
    intro newly st t htask
    exact ⟨newly, st, rfl, rfl, rfl, [], by simp, by simp⟩
  | cons s rest ih =>
    intro newly st t htask
    simp only [fireDts]
    by_cases hct : sent.contains s
    · rw [if_pos hct]
      exact ih newly st t htask
    · rw [if_neg hct]
      cases hiso : env.fromiso (pyReplace s) with
      | error e =>
        have := hfi (pyReplace s)
        rw [hiso] at this
        exact absurd this (by simp [Except.isOk, Except.toBool])
      | ok v =>
        simp only []
        by_cases hlt : now < v
        · rw [if_pos hlt]
          exact ih newly st t htask
        · rw [if_neg hlt]
          rw [htask]
          simp only []
          cases huser : env.users.find? fun u => u.id = t.user_id with
          | none => exact ih newly st t htask
          | some user =>
            simp only []
            obtain ⟨res, hckr⟩ := hck st.session.messages t user
            rw [hckr]
            simp only []
            obtain ⟨hresf, -⟩ := check_ok_shape env st.session.messages t user now res hckr
            rw [if_neg (by rw [hresf]; exact Bool.false_ne_true)]
            cases hnot : env.notify user t
                (match t.due_at with
                 | some due => some (max 0 ((due - now).fdiv 60))
                 | none => none) with
            | ok u =>
              obtain ⟨newly2, st2, h1, h2, h3, entries, h4, h5⟩ := ih (newly ++ [s])
                { st with
                  session := { st.session with messages := res.messages },
                  committed := if res.committed then
                    { st.session with messages := res.messages }
                    else st.committed,
                  log := st.log ++ [(t.conversation_id, t.task_key, s)] }
                t (by simpa using htask)
              refine ⟨newly2, st2, h1, by rw [h2], h3,
                (t.conversation_id, t.task_key, s) :: entries, ?_, ?_⟩
              · rw [h4]
                simp
              · intro e he
                rcases List.mem_cons.mp he with rfl | he
                · exact ⟨rfl, rfl, by simpa using hct⟩
                · exact h5 e he
            | error e2 =>
              obtain ⟨newly2, st2, h1, h2, h3, entries, h4, h5⟩ := ih newly
                { st with
                  session := { st.session with messages := res.messages },
                  committed := if res.committed then
                    { st.session with messages := res.messages }
                    else st.committed }
                t (by simpa using htask)
              exact ⟨newly2, st2, h1, by rw [h2], h3, entries, by rw [h4], h5⟩

theorem fireTask_shape (env : Env) (now : Int)
    (hck : ∀ (ms : List Message) (t2 : Task) (u2 : User),
      ∃ r, check_and_sync_completion env ms t2 u2 now = .ok r)
    (hfi : ∀ s : String, (env.fromiso s).isOk = true)
    (st : P2St) (i : Nat) :
    ∃ st2, fireTask env now st i = .ok st2 ∧
      st2.session.tasks.length = st.session.tasks.length ∧
      (∀ i2 : Nat, i2 ≠ i → st2.session.tasks[i2]? = st.session.tasks[i2]?) ∧
      st2.session.tasks.map taskKey2 = st.session.tasks.map taskKey2 ∧
      (st.fired = true → st2.fired = true) ∧
      ∃ entries, st2.log = st.log ++ entries ∧
        ∀ e ∈ entries, ∃ t : Task, st.session.tasks[i]? = some t ∧
          e.1 = t.conversation_id ∧ e.2.1 = t.task_key ∧
          e.2.2 ∉ pySet t.notifications_sent := by
  unfold fireTask
  cases htask : st.session.tasks[i]? with
  | none =>
    exact ⟨st, rfl, rfl, fun _ _ => rfl, rfl, fun h => h, [], by simp, by simp⟩
  | some t =>
    simp only []
    by_cases hemp : t.notify_at.isEmpty
    · rw [if_pos hemp]
      exact ⟨st, rfl, rfl, fun _ _ => rfl, rfl, fun h => h, [], by simp, by simp⟩
    · rw [if_neg hemp]
      obtain ⟨newly2, st1, h1, h2, h3, entries, h4, h5⟩ :=
        fireDts_shape env now hck hfi i (pySet t.notifications_sent)
          t.notify_at [] st t htask
      rw [h1]
      simp only []
      have hentries : ∀ e ∈ entries, ∃ t2 : Task, (some t : Option Task) = some t2 ∧
          e.1 = t2.conversation_id ∧ e.2.1 = t2.task_key ∧
          e.2.2 ∉ pySet t2.notifications_sent :=
        fun e he => ⟨t, rfl, (h5 e he).1, (h5 e he).2.1, (h5 e he).2.2⟩
      by_cases hne : newly2.isEmpty
      · rw [if_pos hne]
        exact ⟨st1, rfl, by rw [h2], fun i2 _ => by rw [h2], by rw [h2],
          fun h => h3 ▸ h, entries, h4, hentries⟩
      · rw [if_neg hne]
        cases htask2 : st1.session.tasks[i]? with
        | none =>
          exact ⟨st1, rfl, by rw [h2], fun i2 _ => by rw [h2], by rw [h2],
            fun h => h3 ▸ h, entries, h4, hentries⟩
        | some t2 =>
          simp only []
          refine ⟨_, rfl, ?_, ?_, ?_, fun _ => rfl, entries, h4, hentries⟩
          · show (st1.session.tasks.set i _).length = _
            rw [List.length_set, h2]
          · intro i2 hi2
            show (st1.session.tasks.set i _)[i2]? = _
            rw [List.getElem?_set_ne (fun hh => hi2 hh.symm), h2]
          · show (st1.session.tasks.set i _).map taskKey2 = _
            rw [List.map_set, h2]
            refine set_getElem?_eq _ _ _ ?_
            have ht2 : t2 = t := by
              rw [h2, htask] at htask2
              cases htask2
              rfl
            rw [List.getElem?_map, htask, ht2]
            rfl

theorem pass2Go_append (env : Env) (now : Int) (a b : List Nat) :
    ∀ (st st1 : P2St), pass2Go env now a st = .ok st1 →
      pass2Go env now (a ++ b) st = pass2Go env now b st1 := by
  induction a with
  | nil =>
    intro st st1 h
    simp only [pass2Go] at h
    cases h
    rfl
  | cons i rest ih =>
    intro st st1 h
    simp only [pass2Go] at h ⊢
    cases hft : fireTask env now st i with
    | error e => rw [hft] at h; cases h
    | ok stx =>
      rw [hft] at h
      exact ih stx st1 h

theorem pass2Go_others (env : Env) (now : Int)
    (hck : ∀ (ms : List Message) (t2 : Task) (u2 : User),
      ∃ r, check_and_sync_completion env ms t2 u2 now = .ok r)
    (hfi : ∀ s : String, (env.fromiso s).isOk = true)
    (c k dt : String) :
    ∀ (idxs : List Nat) (st : P2St),
      (∀ i ∈ idxs, ∀ t : Task, st.session.tasks[i]? = some t →
        ¬(t.conversation_id = c ∧ t.task_key = k)) →
      ∃ st2, pass2Go env now idxs st = .ok st2 ∧
        (∀ i2 : Nat, i2 ∉ idxs → st2.session.tasks[i2]? = st.session.tasks[i2]?) ∧
        st2.session.tasks.map taskKey2 = st.session.tasks.map taskKey2 ∧
        (st.fired = true → st2.fired = true) ∧
        st2.log.count (c, k, dt) = st.log.count (c, k, dt) := by
  intro idxs
  induction idxs with
  | nil =>
    intro st _
    exact ⟨st, rfl, fun _ _ => rfl, rfl, fun h => h, rfl⟩
  | cons i rest ih =>
    intro st hkeys
    obtain ⟨st1, h1, hlen1, hoth1, hmap1, hfired1, entries, hlog1, hent1⟩ :=
      fireTask_shape env now hck hfi st i
    have hkeysrest : ∀ i2 ∈ rest, ∀ t : Task, st1.session.tasks[i2]? = some t →
        ¬(t.conversation_id = c ∧ t.task_key = k) := by
      intro i2 hi2 t ht
      have hmapel : st1.session.tasks[i2]?.map taskKey2 =
          st.session.tasks[i2]?.map taskKey2 := by
        rw [← List.getElem?_map, ← List.getElem?_map taskKey2 st.session.tasks, hmap1]
      rw [ht] at hmapel
      cases hst : st.session.tasks[i2]? with
      | none => rw [hst] at hmapel; cases hmapel
      | some t0 =>
        rw [hst] at hmapel
        have hkp : taskKey2 t = taskKey2 t0 := by simpa using hmapel
        intro hck
        refine hkeys i2 (List.mem_cons_of_mem _ hi2) t0 hst ?_
        unfold taskKey2 at hkp
        obtain ⟨hc2, hk2⟩ := Prod.mk.injEq .. ▸ hkp
        simp only [Prod.mk.injEq] at hkp
        exact ⟨hkp.1 ▸ hck.1, hkp.2 ▸ hck.2⟩
    obtain ⟨st2, h2, hoth2, hmap2, hfired2, hcount2⟩ := ih st1 hkeysrest
    refine ⟨st2, ?_, ?_, by rw [hmap2, hmap1], fun h => hfired2 (hfired1 h), ?_⟩
    · simp only [pass2Go]
      rw [h1]
      exact h2
    · intro i2 hi2
      have hi2i : i2 ≠ i := fun hh => hi2 (hh ▸ List.mem_cons_self i rest)
      have hi2r : i2 ∉ rest := fun hh => hi2 (List.mem_cons_of_mem _ hh)
      rw [hoth2 i2 hi2r, hoth1 i2 hi2i]
    · rw [hcount2, hlog1, List.count_append]
      have : entries.count (c, k, dt) = 0 := by
        rw [List.count_eq_zero]
        intro hmem
        obtain ⟨t, htk, he1, he2, _⟩ := hent1 _ hmem
        exact hkeys i (List.mem_cons_self i rest) t htk ⟨he1.symm, he2.symm⟩
      rw [this]
      omega

theorem fireTask_clean (env : Env) (now : Int)
    (hck : ∀ (ms : List Message) (t2 : Task) (u2 : User),
      ∃ r, check_and_sync_completion env ms t2 u2 now = .ok r)
    (hnok : ∀ (u : User) (t : Task) (m : Option Int), env.notify u t m = .ok ())
    (st : P2St) (j : Nat) (t : Task) (user : User) (dt : String)
    (htask : st.session.tasks[j]? = some t)
    (huser : env.users.find? (fun u => u.id = t.user_id) = some user)
    (hfiall : ∀ s ∈ t.notify_at, (env.fromiso (pyReplace s)).isOk = true)
    (hdtmem : dt ∈ t.notify_at)
    (hdtfires : firesB env now (pySet t.notifications_sent) dt = true)
    (hdtcount : t.notify_at.count dt = 1) :
    ∃ st2, fireTask env now st j = .ok st2 ∧
      st2.fired = true ∧
      st2.log.count (t.conversation_id, t.task_key, dt) =
        st.log.count (t.conversation_id, t.task_key, dt) + 1 ∧
      (∀ i2 : Nat, i2 ≠ j → st2.session.tasks[i2]? = st.session.tasks[i2]?) ∧
      st2.session.tasks.length = st.session.tasks.length ∧
      ∃ t3 : Task, st2.session.tasks[j]? = some t3 ∧ dt ∈ t3.notifications_sent ∧
        t3.conversation_id = t.conversation_id ∧ t3.task_key = t.task_key := by
  unfold fireTask
  rw [htask]
  simp only []
  rw [if_neg (by simp [List.isEmpty_eq_false.mpr (List.ne_nil_of_mem hdtmem)])]
  obtain ⟨st1, h1, h2, h3, h4⟩ := fireDts_clean env now hck hnok j t user
    (pySet t.notifications_sent) t.notify_at [] st htask huser hfiall
  rw [h1]
  simp only [List.nil_append]
  have hdtin : dt ∈ t.notify_at.filter (firesB env now (pySet t.notifications_sent)) :=
    List.mem_filter.mpr ⟨hdtmem, hdtfires⟩
  rw [if_neg (by simp [List.isEmpty_eq_false.mpr (List.ne_nil_of_mem hdtin)])]
  have htask1 : st1.session.tasks[j]? = some t := by rw [h2]; exact htask
  rw [htask1]
  simp only []
  have hjlt : j < st1.session.tasks.length := (List.getElem?_eq_some.mp htask1).1
  refine ⟨_, rfl, rfl, ?_, ?_, ?_, ?_⟩
  · show st1.log.count _ = _
    rw [h3, List.count_append, count_map_triple, List.count_filter hdtfires, hdtcount]
  · intro i2 hi2
    show (st1.session.tasks.set j _)[i2]? = _
    rw [List.getElem?_set_ne (fun hh => hi2 hh.symm), h2]
  · show (st1.session.tasks.set j _).length = _
    rw [List.length_set, h2]
  · refine ⟨{ t with
      notifications_sent := pySet t.notifications_sent ++
        List.filter (firesB env now (pySet t.notifications_sent)) t.notify_at,
      updated_at := now }, ?_, ?_, rfl, rfl⟩
    · show (st1.session.tasks.set j _)[j]? = _
      rw [List.getElem?_set_self hjlt]
    · exact List.mem_append.mpr (Or.inr hdtin)

/-- The all-rows form of the recorded-instant fact: every row carrying the
reconciliation key pair has the instant in its sent set. -/
def SentEverywhere (c k dt : String) (s : Session) : Prop :=
  ∀ (i : Nat) (t : Task), s.tasks[i]? = some t →
    t.conversation_id = c → t.task_key = k → dt ∈ t.notifications_sent

theorem sentEverywhere_closures (now : Int) (c k dt : String) :
    (∀ (s : Session) (ms : List Message),
      SentEverywhere c k dt s → SentEverywhere c k dt { s with messages := ms }) ∧
    (∀ (s : Session) (i : Nat) (t : Task) (sent newly : List String),
      SentEverywhere c k dt s → s.tasks[i]? = some t →
      sent = pySet t.notifications_sent → (∀ x ∈ newly, x ∈ t.notify_at) →
      SentEverywhere c k dt { s with tasks := s.tasks.set i ({ t with
        notifications_sent := sent ++ newly, updated_at := now }) }) := by
  refine ⟨fun s ms hw => hw, ?_⟩
  intro s i t sent newly hw htk hse hnw
  intro i2 t2 ht2 hc2 hk2
  by_cases hij : i2 = i
  · subst hij
    rw [List.getElem?_set_self (List.getElem?_eq_some.mp htk).1] at ht2
    cases ht2
    refine List.mem_append.mpr (Or.inl ?_)
    rw [hse]
    exact (pySet_mem dt _).mpr (hw i2 t htk hc2 hk2)
  · rw [List.getElem?_set_ne (fun hh => hij hh.symm)] at ht2
    exact hw i2 t2 ht2 hc2 hk2

/-- `pass1Update` touches only `status`, `snoozed_until` and `updated_at`:
identity, conversation and sent-notification bookkeeping are untouched. -/
theorem pass1Update_frame (now : Int) (t : Task) :
    (pass1Update now t).conversation_id = t.conversation_id ∧
    (pass1Update now t).task_key = t.task_key ∧
    (pass1Update now t).notifications_sent = t.notifications_sent := by
  unfold pass1Update
  split <;> exact ⟨rfl, rfl, rfl⟩

/-- `pass3Update` touches only `status` and `updated_at`. -/
theorem pass3Update_frame (now : Int) (t : Task) :
    (pass3Update now t).conversation_id = t.conversation_id ∧
    (pass3Update now t).task_key = t.task_key ∧
    (pass3Update now t).notifications_sent = t.notifications_sent := by
  unfold pass3Update
  split <;> exact ⟨rfl, rfl, rfl⟩

/-- `SentEverywhere` is preserved by mapping any per-task update that keeps
`conversation_id`, `task_key` and `notifications_sent` intact. -/
theorem sentEverywhere_map (c k dt : String) (s : Session) (f : Task → Task)
    (hf : ∀ t, (f t).conversation_id = t.conversation_id ∧
      (f t).task_key = t.task_key ∧
      (f t).notifications_sent = t.notifications_sent)
    (hW : SentEverywhere c k dt s) :
    SentEverywhere c k dt { s with tasks := s.tasks.map f } := by
  intro i t ht hc2 hk2
  rw [List.getElem?_map] at ht
  cases hsi : s.tasks[i]? with
  | none => rw [hsi] at ht; cases ht
  | some ti =>
    rw [hsi] at ht
    have ht2 : some (f ti) = some t := ht
    cases ht2
    obtain ⟨h1, h2, h3⟩ := hf ti
    rw [h1] at hc2
    rw [h2] at hk2
    rw [h3]
    exact hW i ti hsi hc2 hk2

theorem pass2Go_no_refire (env : Env) (now : Int)
    (hck : ∀ (ms : List Message) (t2 : Task) (u2 : User),
      ∃ r, check_and_sync_completion env ms t2 u2 now = .ok r)
    (hfi : ∀ s : String, (env.fromiso s).isOk = true)
    (c k dt : String) :
    ∀ (idxs : List Nat) (st : P2St),
      SentEverywhere c k dt st.session → SentEverywhere c k dt st.committed →
      ∃ st2, pass2Go env now idxs st = .ok st2 ∧
        SentEverywhere c k dt st2.session ∧ SentEverywhere c k dt st2.committed ∧
        st2.log.count (c, k, dt) = st.log.count (c, k, dt) := by
  intro idxs
  induction idxs with
  | nil =>
    intro st hs hc
    exact ⟨st, rfl, hs, hc, rfl⟩
  | cons i rest ih =>
    intro st hs hc
    obtain ⟨st1, h1, hlen1, hoth1, hmap1, hfired1, entries, hlog1, hent1⟩ :=
      fireTask_shape env now hck hfi st i
    obtain ⟨hcl1, hcl3⟩ := sentEverywhere_closures now c k dt
    have hinv := fireTask_invariant env now (SentEverywhere c k dt) hcl1 hcl3 st i hs hc
    rw [h1] at hinv
    obtain ⟨st2, h2, hs2, hc2, hcount2⟩ := ih st1 hinv.1 hinv.2
    refine ⟨st2, ?_, hs2, hc2, ?_⟩
    · simp only [pass2Go]
      rw [h1]
      exact h2
    · rw [hcount2, hlog1, List.count_append]
      have : entries.count (c, k, dt) = 0 := by
        rw [List.count_eq_zero]
        intro hmem
        obtain ⟨t, htk, he1, he2, he3⟩ := hent1 _ hmem
        have : dt ∈ t.notifications_sent := hs i t htk he1.symm he2.symm
        exact he3 ((pySet_mem dt _).mpr this)
      rw [this]
      omega

theorem pass1_keyMap (now : Int) (l : List Task) :
    (l.map (pass1Update now)).map taskKey2 = l.map taskKey2 := by
  rw [List.map_map]
  refine List.map_congr_left ?_
  intro t _
  show taskKey2 (pass1Update now t) = taskKey2 t
  unfold pass1Update
  split <;> rfl

/-- C7 (amended): under the provisos that the sweep cannot abort — every
stored notify string parses, and the completion check stays on its
conversation-absent short circuit instead of raising its line-77
`AttributeError` — and that the dispatcher succeeds, the task's user
exists, the instant occurs exactly once in the task's `notify_at`, and
the `(conversation_id, task_key)` pair is unique in the store (the
table's unique constraint), a due unsent instant of a pending task is
dispatched exactly once by the sweep that fires it and is recorded in
`notifications_sent`; and once recorded, any later sweep under the same
no-abort provisos dispatches nothing further for that instant and keeps
it recorded.  Unconditionally the claim is false: an exception later in
the loop — an unparseable `notify_at` string, or the completion check's
`AttributeError` — aborts the sweep after the dispatch but before the
commit, so the instant is re-dispatched by every subsequent run — see
the counterexample. -/
theorem notify_instants_fire_exactly_once :
    (∀ (env : Env) (db : Session) (now : Int) (j : Nat) (t0 : Task) (user : User)
      (dt : String) (v : Int),
      (∀ cid : String, env.conversations.find? (fun c => c.id = cid) = none) →
      (∀ (u : User) (t : Task) (m : Option Int), env.notify u t m = .ok ()) →
      (∀ s : String, (env.fromiso s).isOk = true) →
      (∀ (i2 : Nat) (t2 : Task), db.tasks[i2]? = some t2 → i2 ≠ j →
        ¬(t2.conversation_id = t0.conversation_id ∧ t2.task_key = t0.task_key)) →
      db.tasks[j]? = some t0 →
      t0.status = "pending" →
      env.users.find? (fun u => u.id = t0.user_id) = some user →
      t0.notify_at.count dt = 1 →
      dt ∉ t0.notifications_sent →
      env.fromiso (pyReplace dt) = .ok v →
      v ≤ now →
      (process_task_deadlines env db now).aborted = false ∧
      (process_task_deadlines env db now).log.count
        (t0.conversation_id, t0.task_key, dt) = 1 ∧
      ∃ t2 : Task, (process_task_deadlines env db now).committed.tasks[j]? = some t2 ∧
        dt ∈ t2.notifications_sent) ∧
    (∀ (env : Env) (db : Session) (now : Int) (c k dt : String),
      (∀ cid : String, env.conversations.find? (fun c => c.id = cid) = none) →
      (∀ s : String, (env.fromiso s).isOk = true) →
      SentEverywhere c k dt db →
      (process_task_deadlines env db now).log.count (c, k, dt) = 0 ∧
      SentEverywhere c k dt (process_task_deadlines env db now).committed) := by
  constructor
  · intro env db now j t0 user dt v hconv hnok hfi huniq hget hst huser hcount hnot hparse hv
    have hck : ∀ (ms : List Message) (t2 : Task) (u2 : User),
        ∃ r, check_and_sync_completion env ms t2 u2 now = .ok r :=
      fun ms t2 u2 => ⟨_, check_conv_none env ms t2 u2 now (hconv t2.conversation_id)⟩
    refine ⟨process_not_aborted env db now hfi hck, ?_⟩
    have hp1t0 : pass1Update now t0 = t0 := by
      unfold pass1Update
      rw [if_neg (by unfold snoozeExpired; simp [hst])]
    have h1j : (db.tasks.map (pass1Update now))[j]? = some t0 := by
      rw [List.getElem?_map, hget]
      simp [hp1t0]
    have hjlt : j < (db.tasks.map (pass1Update now)).length :=
      (List.getElem?_eq_some.mp h1j).1
    have hkeysess : ∀ (i : Nat) (t : Task), i ≠ j →
        (db.tasks.map (pass1Update now))[i]? = some t →
        ¬(t.conversation_id = t0.conversation_id ∧ t.task_key = t0.task_key) := by
      intro i t hij ht
      rw [List.getElem?_map] at ht
      cases hdbi : db.tasks[i]? with
      | none => rw [hdbi] at ht; cases ht
      | some ti =>
        rw [hdbi] at ht
        have ht2 : some (pass1Update now ti) = some t := ht
        cases ht2
        have hkp : taskKey2 (pass1Update now ti) = taskKey2 ti := by
          unfold pass1Update
          split <;> rfl
        unfold taskKey2 at hkp
        simp only [Prod.mk.injEq] at hkp
        intro hck
        exact huniq i ti hdbi hij ⟨hkp.1 ▸ hck.1, hkp.2 ▸ hck.2⟩
    have hjmem : j ∈ (List.range (db.tasks.map (pass1Update now)).length).filter
        (fun i => match (db.tasks.map (pass1Update now))[i]? with
          | some t => t.status = "pending"
          | none => false) := by
      refine List.mem_filter.mpr ⟨List.mem_range.mpr hjlt, ?_⟩
      rw [h1j]
      simpa using hst
    have hnd : ((List.range (db.tasks.map (pass1Update now)).length).filter
        (fun i => match (db.tasks.map (pass1Update now))[i]? with
          | some t => t.status = "pending"
          | none => false)).Nodup :=
      (List.nodup_range _).filter _
    obtain ⟨pre, post, hdecomp⟩ := List.mem_iff_append.mp hjmem
    have hnd2 := hdecomp ▸ hnd
    rw [List.nodup_middle, List.nodup_cons] at hnd2
    have hjpre : j ∉ pre := fun hh => hnd2.1 (List.mem_append.mpr (Or.inl hh))
    have hjpost : j ∉ post := fun hh => hnd2.1 (List.mem_append.mpr (Or.inr hh))
    have hdisj : ∀ i ∈ post, i ∉ pre := by
      intro i hi hip
      have := hnd2.2
      rw [List.nodup_append] at this
      exact this.2.2 hip hi
    set session1 : Session := { db with tasks := db.tasks.map (pass1Update now) }
      with hsession1
    set st0 : P2St := ⟨(if db.tasks.any (snoozeExpired now) then session1 else db),
      session1, [], false⟩ with hst0
    have hst0j : st0.session.tasks[j]? = some t0 := h1j
    obtain ⟨stPre, hPre, hothPre, hmapPre, _, hcountPre⟩ :=
      pass2Go_others env now hck hfi t0.conversation_id t0.task_key dt pre st0
        (fun i hi t ht => hkeysess i t (fun hh => hjpre (hh ▸ hi)) ht)
    have hPreJ : stPre.session.tasks[j]? = some t0 := by
      rw [hothPre j hjpre]
      exact hst0j
    obtain ⟨stJ, hJ, hJfired, hJcount, hJoth, hJlen, t3, hJt3, hJdt, hJc, hJk⟩ :=
      fireTask_clean env now hck hnok stPre j t0 user dt hPreJ huser
        (fun s _ => hfi _)
        (List.count_pos_iff_mem.mp (by omega))
        (by
          unfold firesB
          rw [hparse]
          have hcontains : (pySet t0.notifications_sent).contains dt = false := by
            rw [Bool.eq_false_iff]
            intro hcc
            exact hnot ((pySet_mem dt _).mp (by simpa using hcc))
          rw [hcontains]
          simp [hv])
        hcount
    obtain ⟨stPost, hPost, hothPost, hmapPost, hfiredPost, hcountPost⟩ :=
      pass2Go_others env now hck hfi t0.conversation_id t0.task_key dt post stJ
        (fun i hi t ht => by
          refine hkeysess i t (fun hh => hjpost (hh ▸ hi)) ?_
          rw [← hothPre i (hdisj i hi), ← hJoth i (fun hh => hjpost (hh ▸ hi))]
          exact ht)
    have hcompose : pass2Go env now (pre ++ j :: post) st0 = .ok stPost := by
      rw [pass2Go_append env now pre (j :: post) st0 stPre hPre]
      simp only [pass2Go]
      rw [hJ]
      exact hPost
    unfold process_task_deadlines
    simp only []
    rw [← hsession1, ← hst0, hdecomp, hcompose]
    simp only []
    have hfired : stPost.fired = true := hfiredPost hJfired
    have hPostJ : stPost.session.tasks[j]? = some t3 := by
      rw [hothPost j hjpost]
      exact hJt3
    constructor
    · rw [hcountPost, hJcount, hcountPre]
      rfl
    · rw [if_pos hfired]
      by_cases hov : stPost.session.tasks.any (overdue now)
      · rw [if_pos hov]
        refine ⟨pass3Update now t3, ?_, ?_⟩
        · show (stPost.session.tasks.map (pass3Update now))[j]? = _
          rw [List.getElem?_map, hPostJ]
          rfl
        · unfold pass3Update
          split
          · exact hJdt
          · exact hJdt
      · rw [if_neg hov]
        exact ⟨t3, hPostJ, hJdt⟩
  · intro env db now c k dt hconv hfi hW
    have hck : ∀ (ms : List Message) (t2 : Task) (u2 : User),
        ∃ r, check_and_sync_completion env ms t2 u2 now = .ok r :=
      fun ms t2 u2 => ⟨_, check_conv_none env ms t2 u2 now (hconv t2.conversation_id)⟩
    obtain ⟨hcl1, hcl3⟩ := sentEverywhere_closures now c k dt
    have hWsess1 : SentEverywhere c k dt
        { db with tasks := db.tasks.map (pass1Update now) } :=
      sentEverywhere_map c k dt db (pass1Update now) (pass1Update_frame now) hW
    constructor
    · unfold process_task_deadlines
      simp only []
      have hWc1 : SentEverywhere c k dt
          (if db.tasks.any (snoozeExpired now) then
            { db with tasks := db.tasks.map (pass1Update now) } else db) := by
        split
        · exact hWsess1
        · exact hW
      obtain ⟨st2, heq, _, _, hcount⟩ := pass2Go_no_refire env now hck hfi c k dt
        ((List.range (db.tasks.map (pass1Update now)).length).filter
          (fun i => match (db.tasks.map (pass1Update now))[i]? with
            | some t => t.status = "pending"
            | none => false))
        ⟨(if db.tasks.any (snoozeExpired now) then
            { db with tasks := db.tasks.map (pass1Update now) } else db),
          { db with tasks := db.tasks.map (pass1Update now) }, [], false⟩
        hWsess1 hWc1
      rw [heq]
      show List.count (c, k, dt) st2.log = 0
      rw [hcount]
      rfl
    · refine process_invariant env db now (SentEverywhere c k dt) hcl1 hcl3 ?_ ?_ hW
      · intro s hp
        exact sentEverywhere_map c k dt s (pass1Update now) (pass1Update_frame now) hp
      · intro s hp
        exact sentEverywhere_map c k dt s (pass3Update now) (pass3Update_frame now) hp

/-- A pending task with one unsent notify instant, for the C7 witness. -/
def c7wTask : Task :=
  { user_id := "u1", conversation_id := "c1", task_key := "k1",
    title := "T", category := "reply", priority := "low",
    summary := none, due_at := none, status := "pending",
    ignore_reason := none, llm_model := "m", raw_llm_output := "r",
    notify_at := ["n1"], notifications_sent := [], snoozed_until := none,
    created_at := -1000, updated_at := -1000 }

/-- The C7 witness environment: the parser always succeeds with a past
instant, the judge always raises, the dispatcher always succeeds. -/
def c7wEnv : Env :=
  { users := [{ id := "u1", push_token := some "tok" }],
    conversations := [],
    refresh := fun _ _ => .error .apiError,
    judge := fun _ _ => .error "judge down",
    notify := fun _ _ _ => .ok (),
    fromiso := fun _ => .ok (-5) }

/-- The same task after its instant has been recorded. -/
def c7wSentTask : Task := { c7wTask with notifications_sent := ["n1"] }

/-- Witness for the amended C7: the due unsent instant is dispatched
exactly once by the sweep that fires it, and a sweep over the store with
the instant recorded dispatches nothing for it. -/
theorem notify_instants_fire_exactly_once_witness :
    (process_task_deadlines c7wEnv { tasks := [c7wTask], messages := [] } 0).log.count
      ("c1", "k1", "n1") = 1 ∧
    (process_task_deadlines c7wEnv { tasks := [c7wSentTask], messages := [] } 0).log.count
      ("c1", "k1", "n1") = 0 := by
  constructor
  · exact (notify_instants_fire_exactly_once.1 c7wEnv
      { tasks := [c7wTask], messages := [] } 0 0 c7wTask
      { id := "u1", push_token := some "tok" } "n1" (-5)
      (fun _ => rfl)
      (fun _ _ _ => rfl)
      (fun _ => rfl)
      (by
        intro i2 t2 hh hne
        cases i2 with
        | zero => exact absurd rfl hne
        | succ n =>
          rw [List.getElem?_eq_none (by simp)] at hh
          cases hh)
      rfl rfl rfl (by decide) (by decide) rfl (by decide)).2.1
  · exact (notify_instants_fire_exactly_once.2 c7wEnv
      { tasks := [c7wSentTask], messages := [] } 0 "c1" "k1" "n1"
      (fun _ => rfl)
      (fun _ => rfl)
      (by
        intro i t ht hc hk
        cases i with
        | zero =>
          have ht2 : some c7wSentTask = some t := ht
          cases ht2
          decide
        | succ n =>
          rw [List.getElem?_eq_none (by simp)] at ht
          cases ht)).1

/-- The C7 counterexample task: two notify instants, the second of which
will fail to parse. -/
def c7cTask : Task :=
  { user_id := "u1", conversation_id := "c1", task_key := "k1",
    title := "T", category := "reply", priority := "low",
    summary := none, due_at := none, status := "pending",
    ignore_reason := none, llm_model := "m", raw_llm_output := "r",
    notify_at := ["good", "bad"], notifications_sent := [], snoozed_until := none,
    created_at := -1000, updated_at := -1000 }

/-- The C7 counterexample environment: `datetime.fromisoformat` raises on
the string `bad` and parses everything else to a past instant. -/
def c7cEnv : Env :=
  { users := [{ id := "u1", push_token := some "tok" }],
    conversations := [],
    refresh := fun _ _ => .error .apiError,
    judge := fun _ _ => .error "judge down",
    notify := fun _ _ _ => .ok (),
    fromiso := fun s => if s = "bad" then .error "unparseable" else .ok (-5) }

/-- C7 counterexample: the due unsent instant `good` of a pending task is
dispatched (and logged by the push gateway) once per sweep, yet two
consecutive sweeps with time frozen dispatch it twice: the unparseable
second instant `bad` raises after the dispatch but before the commit, the
run aborts, `notifications_sent` is never updated, and the next run
re-fires the same instant. -/
theorem notify_refire_after_abort_counterexample :
    c7cTask.status = "pending" ∧
    "good" ∈ c7cTask.notify_at ∧
    "good" ∉ c7cTask.notifications_sent ∧
    c7cEnv.fromiso (pyReplace "good") = .ok (-5) ∧
    (process_task_deadlines c7cEnv { tasks := [c7cTask], messages := [] } 0).log.count
      ("c1", "k1", "good") = 1 ∧
    (process_task_deadlines c7cEnv { tasks := [c7cTask], messages := [] } 0).aborted = true ∧
    (process_task_deadlines c7cEnv
      (process_task_deadlines c7cEnv { tasks := [c7cTask], messages := [] } 0).committed
      0).log.count ("c1", "k1", "good") = 1 ∧
    (process_task_deadlines c7cEnv
      (process_task_deadlines c7cEnv { tasks := [c7cTask], messages := [] } 0).committed
      0).committed.tasks.map Task.notifications_sent = [[]] :=
  ⟨rfl, by decide, by decide, rfl, by decide, by decide, by decide, by decide⟩

end Cordelia
